import Mathlib

/-!
Verification development for the gopilot LSP server (Python).

Python strings are modelled as `List Char` (`PyStr`); JSON values as the
inductive `Json` with integer numbers (floats are outside the model); the
model backend (`OllamaClient`) and the git subprocess boundary (`_run_git`)
are oracles passed as explicit function parameters.  All definitions are
transcribed from the Python source in `src/gopilot`.
-/

set_option maxHeartbeats 1000000

/-- Python strings as lists of characters. -/
abbrev PyStr := List Char

/-- Characters treated as whitespace by Python `str.strip()` and the regex
class `\s` (space, tab, newline, carriage return, vertical tab, form feed). -/
def isPySpace (c : Char) : Bool :=
  c = ' ' || c = '\t' || c = '\n' || c = '\r' || c = '\x0b' || c = '\x0c'

/-- Python `str.strip()`. -/
def pyStrip (s : PyStr) : PyStr :=
  ((s.dropWhile isPySpace).reverse.dropWhile isPySpace).reverse

/-- Python `str.lower()` (ASCII case mapping suffices for this code base). -/
def pyLower (s : PyStr) : PyStr := s.map Char.toLower

/-- Python `text.split("\n")`: always returns at least one piece. -/
def splitLines : PyStr → List PyStr
  | [] => [[]]
  | c :: rest =>
    if c = '\n' then [] :: splitLines rest
    else
      match splitLines rest with
      | l :: ls => (c :: l) :: ls
      | [] => [[c]]

/-- Python `"\n".join(lines)`. -/
def joinLines : List PyStr → PyStr
  | [] => []
  | [l] => l
  | l :: ls => l ++ '\n' :: joinLines ls

/-- Python `s.startswith(pre)`. -/
def startsWithP (s pre : PyStr) : Bool := s.take pre.length = pre

/-- Python `s.endswith(suf)`. -/
def endsWithP (s suf : PyStr) : Bool := s.reverse.take suf.length = suf.reverse

/-- Python dict assignment `d[k] = v` on an association list: replaces the
existing entry in place or appends a new one (insertion order preserved). -/
def assocSet (m : List (PyStr × PyStr)) (k v : PyStr) : List (PyStr × PyStr) :=
  match m with
  | [] => [(k, v)]
  | (k', v') :: rest => if k' = k then (k, v) :: rest else (k', v') :: assocSet rest k v

/-- Python dict lookup `d.get(k)` on an association list. -/
def assocGet (m : List (PyStr × PyStr)) (k : PyStr) : Option PyStr :=
  match m with
  | [] => none
  | (k', v) :: rest => if k' = k then some v else assocGet rest k

/-- JSON values as handled by Python's `json` module, restricted to integer
numbers (the server never produces non-integer numbers; floats are outside
this model). Objects are association lists in insertion order. -/
inductive Json where
  | null : Json
  | bool (b : Bool) : Json
  | num (n : Int) : Json
  | str (s : PyStr) : Json
  | arr (elems : List Json) : Json
  | obj (members : List (PyStr × Json)) : Json

mutual
/-- Boolean equality on JSON values. -/
def Json.beq : Json → Json → Bool
  | .null, .null => true
  | .bool a, .bool b => a == b
  | .num a, .num b => a == b
  | .str a, .str b => a == b
  | .arr a, .arr b => Json.beqList a b
  | .obj a, .obj b => Json.beqObj a b
  | _, _ => false

/-- Boolean equality on JSON arrays. -/
def Json.beqList : List Json → List Json → Bool
  | [], [] => true
  | a :: as, b :: bs => Json.beq a b && Json.beqList as bs
  | _, _ => false

/-- Boolean equality on JSON object member lists. -/
def Json.beqObj : List (PyStr × Json) → List (PyStr × Json) → Bool
  | [], [] => true
  | (k, v) :: as, (k', v') :: bs => k == k' && Json.beq v v' && Json.beqObj as bs
  | _, _ => false
end

theorem sizeOf_lt_of_mem_json {e : Json} {es : List Json} (h : e ∈ es) :
    sizeOf e < sizeOf es := by
  induction es with
  | nil => cases h
  | cons a as ih =>
    rcases List.mem_cons.mp h with h1 | h1
    · subst h1; simp; omega
    · have := ih h1; simp; omega

theorem sizeOf_lt_of_mem_jobj {k : PyStr} {v : Json} {ms : List (PyStr × Json)}
    (h : (k, v) ∈ ms) : sizeOf v < sizeOf ms := by
  induction ms with
  | nil => cases h
  | cons a as ih =>
    rcases List.mem_cons.mp h with h1 | h1
    · cases a; cases h1; simp; omega
    · have := ih h1; simp; omega

theorem json_beqList_eq : ∀ es es', (∀ e ∈ es, ∀ b, Json.beq e b = true → e = b) →
    Json.beqList es es' = true → es = es' := by
  intro es
  induction es with
  | nil => intro es' _ h; cases es' <;> simp_all [Json.beqList]
  | cons a as ih =>
    intro es' hmem h
    cases es' with
    | nil => simp [Json.beqList] at h
    | cons b bs =>
      simp only [Json.beqList, Bool.and_eq_true] at h
      have h1 := hmem a (by simp) b h.1
      have h2 := ih bs (fun e he => hmem e (by simp [he])) h.2
      rw [h1, h2]

theorem json_beqObj_eq : ∀ ms ms', (∀ k v, (k, v) ∈ ms → ∀ b, Json.beq v b = true → v = b) →
    Json.beqObj ms ms' = true → ms = ms' := by
  intro ms
  induction ms with
  | nil => intro ms' _ h; cases ms' <;> simp_all [Json.beqObj]
  | cons a as ih =>
    intro ms' hmem h
    cases a with
    | mk k v =>
      cases ms' with
      | nil => simp [Json.beqObj] at h
      | cons b bs =>
        cases b with
        | mk k' v' =>
          simp only [Json.beqObj, Bool.and_eq_true] at h
          have hk : k = k' := by
            have := h.1.1; exact eq_of_beq this
          have hv := hmem k v (by simp) v' h.1.2
          have h2 := ih bs (fun k v hin => hmem k v (by simp [hin])) h.2
          rw [hk, hv, h2]

theorem json_beq_eq_aux : ∀ (n : Nat) (a b : Json), sizeOf a ≤ n → Json.beq a b = true → a = b := by
  intro n
  induction n using Nat.strong_induction_on with
  | _ n ih =>
    intro a b hs h
    cases a with
    | null => cases b <;> simp_all [Json.beq]
    | bool x => cases b <;> simp_all [Json.beq]
    | num x => cases b <;> simp_all [Json.beq]
    | str x => cases b <;> simp_all [Json.beq]
    | arr as =>
      cases b with
      | arr bs =>
        have hmem : ∀ e ∈ as, ∀ b', Json.beq e b' = true → e = b' := by
          intro e he b' hb
          have hlt : sizeOf e < n := by
            have h1 := sizeOf_lt_of_mem_json he
            have h2 : sizeOf (Json.arr as) = 1 + sizeOf as := by simp
            omega
          exact ih (sizeOf e) hlt e b' le_rfl hb
        have := json_beqList_eq as bs hmem (by simpa [Json.beq] using h)
        rw [this]
      | null => simp [Json.beq] at h
      | bool _ => simp [Json.beq] at h
      | num _ => simp [Json.beq] at h
      | str _ => simp [Json.beq] at h
      | obj _ => simp [Json.beq] at h
    | obj ms =>
      cases b with
      | obj ms' =>
        have hmem : ∀ k v, (k, v) ∈ ms → ∀ b', Json.beq v b' = true → v = b' := by
          intro k v hv b' hb
          have hlt : sizeOf v < n := by
            have h1 := sizeOf_lt_of_mem_jobj hv
            have h2 : sizeOf (Json.obj ms) = 1 + sizeOf ms := by simp
            omega
          exact ih (sizeOf v) hlt v b' le_rfl hb
        have := json_beqObj_eq ms ms' hmem (by simpa [Json.beq] using h)
        rw [this]
      | null => simp [Json.beq] at h
      | bool _ => simp [Json.beq] at h
      | num _ => simp [Json.beq] at h
      | str _ => simp [Json.beq] at h
      | arr _ => simp [Json.beq] at h

theorem json_beq_eq (a b : Json) (h : Json.beq a b = true) : a = b :=
  json_beq_eq_aux (sizeOf a) a b le_rfl h

theorem json_beqList_refl : ∀ es, (∀ e ∈ es, Json.beq e e = true) → Json.beqList es es = true := by
  intro es
  induction es with
  | nil => intro; rfl
  | cons a as ih =>
    intro hmem
    simp only [Json.beqList, Bool.and_eq_true]
    exact ⟨hmem a (by simp), ih (fun e he => hmem e (by simp [he]))⟩

theorem json_beqObj_refl : ∀ ms, (∀ k v, (k, v) ∈ ms → Json.beq v v = true) →
    Json.beqObj ms ms = true := by
  intro ms
  induction ms with
  | nil => intro; rfl
  | cons a as ih =>
    intro hmem
    cases a with
    | mk k v =>
      simp only [Json.beqObj, Bool.and_eq_true]
      exact ⟨⟨by simp, hmem k v (by simp)⟩, ih (fun k v hin => hmem k v (by simp [hin]))⟩

theorem json_beq_refl_aux : ∀ (n : Nat) (a : Json), sizeOf a ≤ n → Json.beq a a = true := by
  intro n
  induction n using Nat.strong_induction_on with
  | _ n ih =>
    intro a hs
    cases a with
    | null => rfl
    | bool x => simp [Json.beq]
    | num x => simp [Json.beq]
    | str x => simp [Json.beq]
    | arr as =>
      have : ∀ e ∈ as, Json.beq e e = true := by
        intro e he
        have hlt : sizeOf e < n := by
          have h1 := sizeOf_lt_of_mem_json he
          have h2 : sizeOf (Json.arr as) = 1 + sizeOf as := by simp
          omega
        exact ih (sizeOf e) hlt e le_rfl
      simpa [Json.beq] using json_beqList_refl as this
    | obj ms =>
      have : ∀ k v, (k, v) ∈ ms → Json.beq v v = true := by
        intro k v hv
        have hlt : sizeOf v < n := by
          have h1 := sizeOf_lt_of_mem_jobj hv
          have h2 : sizeOf (Json.obj ms) = 1 + sizeOf ms := by simp
          omega
        exact ih (sizeOf v) hlt v le_rfl
      simpa [Json.beq] using json_beqObj_refl ms this

theorem json_beq_refl (a : Json) : Json.beq a a = true :=
  json_beq_refl_aux (sizeOf a) a le_rfl

instance : DecidableEq Json := fun a b =>
  if h : Json.beq a b = true then isTrue (json_beq_eq a b h)
  else isFalse (fun he => h (he ▸ json_beq_refl a))

/-- Decimal digits of a natural number, most significant first
(Python `str(n)` for `n ≥ 0`). -/
def natToDec (n : Nat) : PyStr :=
  if h : n < 10 then [Char.ofNat (48 + n)]
  else natToDec (n / 10) ++ [Char.ofNat (48 + n % 10)]
decreasing_by exact Nat.div_lt_self (by omega) (by omega)

/-- Python `str(i)` for an integer. -/
def intToDec (i : Int) : PyStr :=
  if i < 0 then '-' :: natToDec (-i).toNat else natToDec i.toNat

/-- Lower-case hexadecimal digit, as produced by Python's `json` escaper. -/
def hexDigit (n : Nat) : Char :=
  if n < 10 then Char.ofNat (48 + n) else Char.ofNat (87 + n)

/-- Four lower-case hex digits of `n < 0x10000`. -/
def hex4 (n : Nat) : PyStr :=
  [hexDigit (n / 4096 % 16), hexDigit (n / 256 % 16), hexDigit (n / 16 % 16), hexDigit (n % 16)]

/-- Escape one character the way `json.dumps` (default `ensure_ascii=True`)
does: short escapes for the common controls, `\uXXXX` for other controls and
all non-ASCII characters, surrogate pairs beyond the BMP. -/
def escapeChar (c : Char) : PyStr :=
  if c = '"' then ['\\', '"']
  else if c = '\\' then ['\\', '\\']
  else if c = '\n' then ['\\', 'n']
  else if c = '\t' then ['\\', 't']
  else if c = '\r' then ['\\', 'r']
  else if c = '\x08' then ['\\', 'b']
  else if c = '\x0c' then ['\\', 'f']
  else if c.toNat < 0x20 then '\\' :: 'u' :: hex4 c.toNat
  else if c.toNat < 0x7f then [c]
  else if c.toNat ≤ 0xffff then '\\' :: 'u' :: hex4 c.toNat
  else
    ('\\' :: 'u' :: hex4 (0xd800 + (c.toNat - 0x10000) / 1024)) ++
    ('\\' :: 'u' :: hex4 (0xdc00 + (c.toNat - 0x10000) % 1024))

/-- Escaped body of a JSON string. -/
def escStr : PyStr → PyStr
  | [] => []
  | c :: rest => escapeChar c ++ escStr rest

/-- Serialized JSON string including the surrounding quotes. -/
def dumpStr (s : PyStr) : PyStr := '"' :: escStr s ++ ['"']

mutual
/-- Model of `json.dumps` with Python's default separators `", "` / `": "`
and `ensure_ascii=True` (so the output is pure ASCII). -/
def dumps : Json → PyStr
  | .null => "null".data
  | .bool true => "true".data
  | .bool false => "false".data
  | .num n => intToDec n
  | .str s => dumpStr s
  | .arr es => '[' :: dumpsArr es ++ [']']
  | .obj ms => '\x7b' :: dumpsObj ms ++ ['\x7d']

/-- Array elements joined by `", "`. -/
def dumpsArr : List Json → PyStr
  | [] => []
  | [e] => dumps e
  | e :: es => dumps e ++ ',' :: ' ' :: dumpsArr es

/-- Object members `"key": value` joined by `", "`. -/
def dumpsObj : List (PyStr × Json) → PyStr
  | [] => []
  | [(k, v)] => dumpStr k ++ ':' :: ' ' :: dumps v
  | (k, v) :: ms => dumpStr k ++ ':' :: ' ' :: dumps v ++ ',' :: ' ' :: dumpsObj ms
end

/-- JSON whitespace accepted between tokens by `json.loads`. -/
def isJsonWs (c : Char) : Bool := c = ' ' || c = '\t' || c = '\n' || c = '\r'

/-- Skip JSON whitespace. -/
def skipWs (s : PyStr) : PyStr := s.dropWhile isJsonWs

/-- Numeric value of one hex digit (upper or lower case). -/
def hexVal (c : Char) : Option Nat :=
  if '0' ≤ c ∧ c ≤ '9' then some (c.toNat - 48)
  else if 'a' ≤ c ∧ c ≤ 'f' then some (c.toNat - 87)
  else if 'A' ≤ c ∧ c ≤ 'F' then some (c.toNat - 70)
  else none

/-- Value of four hex digits. -/
def hex4Val (a b c d : Char) : Option Nat :=
  match hexVal a, hexVal b, hexVal c, hexVal d with
  | some x, some y, some z, some w => some (x * 4096 + y * 256 + z * 16 + w)
  | _, _, _, _ => none

/-- Prepend a character to a pending string-parse result. -/
def consStr (c : Char) : Option (PyStr × PyStr) → Option (PyStr × PyStr)
  | some (s, r) => some (c :: s, r)
  | none => none

/-- Parse the body of a JSON string after the opening quote, decoding escapes
and recombining surrogate pairs, exactly as `json.loads` does for inputs that
do not contain lone surrogates (a lone surrogate cannot be a Lean `Char`
and makes this model reject where Python would synthesize one; no output of
`dumps` contains lone surrogates). -/
def parseStr : Nat → PyStr → Option (PyStr × PyStr)
  | 0, _ => none
  | _ + 1, [] => none
  | fuel + 1, c :: rest =>
    if c = '"' then some ([], rest)
    else if c = '\\' then
      match rest with
      | [] => none
      | e :: rest2 =>
        if e = '"' then consStr '"' (parseStr fuel rest2)
        else if e = '\\' then consStr '\\' (parseStr fuel rest2)
        else if e = '/' then consStr '/' (parseStr fuel rest2)
        else if e = 'n' then consStr '\n' (parseStr fuel rest2)
        else if e = 't' then consStr '\t' (parseStr fuel rest2)
        else if e = 'r' then consStr '\r' (parseStr fuel rest2)
        else if e = 'b' then consStr '\x08' (parseStr fuel rest2)
        else if e = 'f' then consStr '\x0c' (parseStr fuel rest2)
        else if e = 'u' then
          match rest2 with
          | h1 :: h2 :: h3 :: h4 :: rest3 =>
            match hex4Val h1 h2 h3 h4 with
            | none => none
            | some n =>
              if 0xd800 ≤ n ∧ n ≤ 0xdbff then
                match rest3 with
                | '\\' :: 'u' :: g1 :: g2 :: g3 :: g4 :: rest4 =>
                  match hex4Val g1 g2 g3 g4 with
                  | none => none
                  | some m =>
                    if 0xdc00 ≤ m ∧ m ≤ 0xdfff then
                      consStr (Char.ofNat (0x10000 + (n - 0xd800) * 1024 + (m - 0xdc00)))
                        (parseStr fuel rest4)
                    else none
                | _ => none
              else if 0xdc00 ≤ n ∧ n ≤ 0xdfff then none
              else consStr (Char.ofNat n) (parseStr fuel rest3)
          | _ => none
        else none
    else if c.toNat < 0x20 then none
    else consStr c (parseStr fuel rest)

/-- Decimal value of a digit string. -/
def decVal (ds : PyStr) : Nat := ds.foldl (fun a c => a * 10 + (c.toNat - 48)) 0

/-- True when the string is a forbidden leading-zero integer like `"01"`. -/
def leadZero (ds : PyStr) : Bool :=
  match ds with
  | d :: _ :: _ => d = '0'
  | _ => false

/-- True when the next character would extend the token into a float or
exponent (unsupported in this integer-only model; `json.loads` would parse a
float here). -/
def floatNext (rest : PyStr) : Bool :=
  match rest with
  | x :: _ => x = '.' || x = 'e' || x = 'E'
  | [] => false

/-- Parse a JSON integer starting at `c :: r`. -/
def parseNum (c : Char) (r : PyStr) : Option (Json × PyStr) :=
  if c = '-' then
    let ds := r.takeWhile Char.isDigit
    let rest := r.dropWhile Char.isDigit
    if ds = [] then none
    else if leadZero ds then none
    else if floatNext rest then none
    else some (.num (-(decVal ds : Int)), rest)
  else
    let ds := (c :: r).takeWhile Char.isDigit
    let rest := (c :: r).dropWhile Char.isDigit
    if ds = [] then none
    else if leadZero ds then none
    else if floatNext rest then none
    else some (.num (decVal ds : Int), rest)

mutual
/-- Fuel-indexed recursive-descent JSON value parser modelling `json.loads`
(restricted to integer numbers). -/
def parseVal : Nat → PyStr → Option (Json × PyStr)
  | 0, _ => none
  | fuel + 1, s =>
    match skipWs s with
    | [] => none
    | c :: r =>
      if c = 'n' then (if r.take 3 = "ull".data then some (.null, r.drop 3) else none)
      else if c = 't' then (if r.take 3 = "rue".data then some (.bool true, r.drop 3) else none)
      else if c = 'f' then (if r.take 4 = "alse".data then some (.bool false, r.drop 4) else none)
      else if c = '"' then
        match parseStr fuel r with
        | some (s', r') => some (.str s', r')
        | none => none
      else if c = '[' then
        let r1 := skipWs r
        if r1.head? = some ']' then some (.arr [], r1.tail)
        else
          match parseItems fuel r1 with
          | some (es, r') => some (.arr es, r')
          | none => none
      else if c = '\x7b' then
        let r1 := skipWs r
        if r1.head? = some '\x7d' then some (.obj [], r1.tail)
        else
          match parseMembers fuel r1 with
          | some (ms, r') => some (.obj ms, r')
          | none => none
      else if c = '-' || c.isDigit then parseNum c r
      else none

/-- Parse one or more comma-separated array elements and the closing `]`. -/
def parseItems : Nat → PyStr → Option (List Json × PyStr)
  | 0, _ => none
  | fuel + 1, s =>
    match parseVal fuel s with
    | none => none
    | some (e, r) =>
      let r1 := skipWs r
      if r1.head? = some ',' then
        match parseItems fuel r1.tail with
        | some (es, r') => some (e :: es, r')
        | none => none
      else if r1.head? = some ']' then some ([e], r1.tail)
      else none

/-- Parse one or more comma-separated object members and the closing brace. -/
def parseMembers : Nat → PyStr → Option (List (PyStr × Json) × PyStr)
  | 0, _ => none
  | fuel + 1, s =>
    match skipWs s with
    | [] => none
    | c :: r =>
      if c = '"' then
        match parseStr fuel r with
        | none => none
        | some (k, r2) =>
          match skipWs r2 with
          | [] => none
          | c2 :: r4 =>
            if c2 = ':' then
              match parseVal fuel r4 with
              | none => none
              | some (v, r5) =>
                let r6 := skipWs r5
                if r6.head? = some ',' then
                  match parseMembers fuel r6.tail with
                  | some (ms, r') => some ((k, v) :: ms, r')
                  | none => none
                else if r6.head? = some '\x7d' then some ([(k, v)], r6.tail)
                else none
            else none
      else none
end

/-- Model of `json.loads`: parse one value and require only whitespace after
it. Returns `none` where Python raises `json.JSONDecodeError`. -/
def loads (s : PyStr) : Option Json :=
  match parseVal (s.length + 1) s with
  | some (j, rest) => if skipWs rest = [] then some j else none
  | none => none

/-!
Model backend and git collaborators.  `OllamaO` is the `OllamaClient`
contract (HTTP glue is outside the model); `GitO` wraps the subprocess
boundary `GitContext._run_git`, from which the other `GitContext` methods
are transcribed below.
-/

/-- Oracle for the `OllamaClient` collaborator: `complete_code` takes
(code_before, code_after, language, cursor text, secondary context, project
context); `generate` takes (prompt, system). `none` models any HTTP failure. -/
structure OllamaO where
  completeCode : PyStr → PyStr → PyStr → PyStr → PyStr → PyStr → Option PyStr
  explainCode : PyStr → PyStr → Option PyStr
  generate : PyStr → Option PyStr → Option PyStr
  healthCheck : Bool
  listModels : List PyStr

/-- Oracle for `GitContext._run_git`: maps the argument list passed after
`git -C <repo>` to the stripped stdout, or `none` on failure. -/
structure GitO where
  runGit : List PyStr → Option PyStr

/-- Python truthiness of an `Optional[str]`: `None` and `""` are falsy. -/
def optStrFalsy : Option PyStr → Bool
  | none => true
  | some s => s.isEmpty

/-- Worker for `pySplitlines`: accumulates the current line (reversed);
a trailing separator does not open a new line. -/
def pySplitlinesGo : PyStr → PyStr → List PyStr
  | [], acc => [acc.reverse]
  | '\r' :: '\n' :: rest, acc =>
    if rest = [] then [acc.reverse] else acc.reverse :: pySplitlinesGo rest []
  | '\n' :: rest, acc =>
    if rest = [] then [acc.reverse] else acc.reverse :: pySplitlinesGo rest []
  | '\r' :: rest, acc =>
    if rest = [] then [acc.reverse] else acc.reverse :: pySplitlinesGo rest []
  | c :: rest, acc => pySplitlinesGo rest (c :: acc)

/-- Python `str.splitlines()` for the separators `\n`, `\r\n`, `\r`
(the only ones that occur in git output). -/
def pySplitlines : PyStr → List PyStr
  | [] => []
  | s => pySplitlinesGo s []

/-- Lexicographic (code-point) strict order on Python strings. -/
def pyStrLt : PyStr → PyStr → Bool
  | [], [] => false
  | [], _ :: _ => true
  | _ :: _, [] => false
  | a :: as, b :: bs =>
    if a.toNat < b.toNat then true
    else if b.toNat < a.toNat then false
    else pyStrLt as bs

/-- Python `sorted` on strings (stable sort by code-point order). -/
def pySorted (l : List PyStr) : List PyStr := l.mergeSort (fun a b => !pyStrLt b a)

/-- Transcription of `GitContext.is_git_repo`. -/
def isGitRepo (g : GitO) : Bool :=
  g.runGit ["rev-parse".data, "--is-inside-work-tree".data] = some "true".data

/-- Transcription of `GitContext.get_current_branch`. -/
def getCurrentBranch (g : GitO) : Option PyStr :=
  g.runGit ["rev-parse".data, "--abbrev-ref".data, "HEAD".data]

/-- Transcription of `GitContext.list_branches`. -/
def listBranches (g : GitO) (allBranches : Bool := false) : List PyStr :=
  let args := ["branch".data, "--format=%(refname:short)".data] ++
    (if allBranches then ["--all".data] else [])
  match g.runGit args with
  | none => []
  | some output =>
    if output = [] then []
    else pySorted (((pySplitlines output).filter (fun l => pyStrip l ≠ [])).map pyStrip)

/-- Transcription of `GitContext.get_diff`. -/
def getDiff (g : GitO) (base target : Option PyStr := none) (staged : Bool := false)
    (nameOnly : Bool := false) : Option PyStr :=
  let args := ["diff".data] ++
    (if nameOnly then ["--name-only".data] else []) ++
    (if staged then ["--cached".data] else []) ++
    (match base with | some b => if b ≠ [] then [b] else [] | none => []) ++
    (match target with | some t => if t ≠ [] then [t] else [] | none => [])
  g.runGit args

/-- Transcription of `GitContext.get_changed_files`. -/
def getChangedFiles (g : GitO) (base target : Option PyStr := none)
    (staged : Bool := false) : List PyStr :=
  match getDiff g base target staged true with
  | none => []
  | some output =>
    if output = [] then []
    else ((pySplitlines output).filter (fun l => pyStrip l ≠ [])).map pyStrip

/-- Transcription of `GitContext.get_staged_diff`. -/
def getStagedDiff (g : GitO) : Option PyStr := getDiff g none none true false

/-- Transcription of `GitContext.get_commit_log`. -/
def getCommitLog (g : GitO) (n : Nat := 10) (branch : Option PyStr := none)
    (oneline : Bool := true) : List PyStr :=
  let args := ["log".data, '-' :: natToDec n] ++
    (if oneline then ["--oneline".data] else []) ++
    (match branch with | some b => if b ≠ [] then [b] else [] | none => [])
  match g.runGit args with
  | none => []
  | some output =>
    if output = [] then []
    else ((pySplitlines output).filter (fun l => pyStrip l ≠ [])).map pyStrip

/-- Transcription of `GitContext.get_branch_commits`. -/
def getBranchCommits (g : GitO) (base : PyStr) (target : Option PyStr := none)
    (n : Nat := 50) : List PyStr :=
  let refRange :=
    match target with
    | some t => if t ≠ [] then base ++ "..".data ++ t else base ++ "..HEAD".data
    | none => base ++ "..HEAD".data
  let args := ["log".data, "--oneline".data, '-' :: natToDec n, refRange]
  match g.runGit args with
  | none => []
  | some output =>
    if output = [] then []
    else ((pySplitlines output).filter (fun l => pyStrip l ≠ [])).map pyStrip

/-- Transcription of `GitContext.list_project_files`. -/
def listProjectFiles (g : GitO) : List PyStr :=
  match g.runGit ["ls-files".data] with
  | none => []
  | some output =>
    if output = [] then []
    else pySorted (((pySplitlines output).filter (fun l => pyStrip l ≠ [])).map pyStrip)

/-- Status summary of `GitContext.get_status_summary` (a Python dict with
fixed keys). -/
structure StatusSummary where
  branch : Option PyStr
  branches : List PyStr
  stagedFiles : List PyStr
  unstagedFiles : List PyStr
  recentCommits : List PyStr

/-- Transcription of `GitContext.get_status_summary`. -/
def getStatusSummary (g : GitO) : StatusSummary :=
  { branch := getCurrentBranch g
    branches := listBranches g
    stagedFiles := getChangedFiles g none none true
    unstagedFiles := getChangedFiles g none none false
    recentCommits := getCommitLog g 5 none true }

/-!
Handlers (`src/gopilot/handlers.py`).
-/

/-- Handler-visible state: the cursor window size and the document store
(a Python dict in insertion order). -/
structure HState where
  contextLines : Nat
  store : List (PyStr × PyStr)
deriving DecidableEq

/-- Transcription of `LSPHandlers.store_document`. -/
def storeDocument (h : HState) (uri text : PyStr) : HState :=
  { h with store := assocSet h.store uri text }

/-- Transcription of `LSPHandlers.remove_document`. -/
def removeDocument (h : HState) (uri : PyStr) : HState :=
  { h with store := h.store.filter (fun p => p.1 ≠ uri) }

/-- Transcription of `LSPHandlers.get_document`. -/
def getDocument (h : HState) (uri : PyStr) : Option PyStr := assocGet h.store uri

/-- Extension table of `LSPHandlers._get_language_from_uri` (dict literal in
insertion order; lookup is the first `uri.endswith(ext)` hit). -/
def extMap : List (PyStr × PyStr) :=
  [(".py".data, "python".data), (".js".data, "javascript".data), (".ts".data, "typescript".data),
   (".jsx".data, "javascript".data), (".tsx".data, "typescript".data), (".go".data, "go".data),
   (".rs".data, "rust".data), (".java".data, "java".data), (".c".data, "c".data),
   (".cpp".data, "cpp".data), (".h".data, "c".data), (".hpp".data, "cpp".data),
   (".rb".data, "ruby".data), (".php".data, "php".data), (".lua".data, "lua".data),
   (".sh".data, "bash".data), (".bash".data, "bash".data), (".zsh".data, "zsh".data),
   (".sql".data, "sql".data), (".html".data, "html".data), (".css".data, "css".data),
   (".json".data, "json".data), (".yaml".data, "yaml".data), (".yml".data, "yaml".data),
   (".md".data, "markdown".data), (".toml".data, "toml".data)]

/-- Transcription of `LSPHandlers._get_language_from_uri`. -/
def languageFromUri (uri : PyStr) : PyStr :=
  match extMap.find? (fun p => endsWithP uri p.1) with
  | some p => p.2
  | none => "text".data

/-- Transcription of `LSPHandlers._build_local_scope` (LSP positions are
non-negative, so line and character are naturals; Python list/string slicing
clamps exactly like `List.drop`/`List.take`). -/
def buildLocalScope (contextLines : Nat) (lines : List PyStr) (lineNum charNum : Nat) :
    PyStr × PyStr × PyStr :=
  let startLine := lineNum - contextLines
  let endLine := min lines.length (lineNum + contextLines + 1)
  let codeBeforeLines := (lines.drop startLine).take (lineNum - startLine)
  match lines.get? lineNum with
  | some cur =>
    let cursorPref := cur.take charNum
    let codeAfterLines := cur.drop charNum :: (lines.drop (lineNum + 1)).take (endLine - (lineNum + 1))
    (joinLines (codeBeforeLines ++ [cursorPref]), joinLines codeAfterLines, cursorPref)
  | none =>
    let codeAfterLines := (lines.drop (lineNum + 1)).take (endLine - (lineNum + 1))
    (joinLines codeBeforeLines, joinLines codeAfterLines, [])

/-- Python-branch summary collection of `LSPHandlers._extract_file_summary`. -/
def pySummaryPython (lines : List PyStr) : List PyStr :=
  lines.enum.filterMap fun p =>
    let stripped := pyStrip p.2
    if p.1 < 100 && (startsWithP stripped "import ".data || startsWithP stripped "from ".data) then
      some stripped
    else if startsWithP stripped "def ".data || startsWithP stripped "class ".data ||
        startsWithP stripped "async def ".data then
      if ':' ∈ stripped then some (stripped.takeWhile (· ≠ ':') ++ [':']) else none
    else none

/-- JavaScript/TypeScript-branch summary collection of
`LSPHandlers._extract_file_summary`. -/
def pySummaryJs (lines : List PyStr) : List PyStr :=
  (lines.take 100).filterMap fun line =>
    let stripped := pyStrip line
    if startsWithP stripped "import ".data || startsWithP stripped "export ".data ||
        startsWithP stripped "const ".data || startsWithP stripped "let ".data ||
        startsWithP stripped "var ".data then
      some (stripped.take 80)
    else none

/-- Generic-fallback loop of `LSPHandlers._extract_file_summary`: append the
stripped 80-character truncation of each non-blank line, breaking as soon as
ten lines have been collected. -/
def fallbackLoop : List PyStr → List PyStr → List PyStr
  | [], acc => acc
  | l :: ls, acc =>
    let acc2 := if pyStrip l ≠ [] then acc ++ [(pyStrip l).take 80] else acc
    if 10 ≤ acc2.length then acc2 else fallbackLoop ls acc2

/-- Transcription of `LSPHandlers._extract_file_summary`. -/
def extractFileSummary (text language : PyStr) : PyStr :=
  let lines := splitLines text
  let summaryLines :=
    if language = "python".data then pySummaryPython lines
    else if language = "javascript".data || language = "typescript".data then pySummaryJs lines
    else []
  let summaryLines2 := if summaryLines = [] then fallbackLoop (lines.take 20) [] else summaryLines
  joinLines (summaryLines2.take 30)

/-- Python `uri.replace("file://", "")`. -/
def dropFileScheme : PyStr → PyStr
  | 'f' :: 'i' :: 'l' :: 'e' :: ':' :: '/' :: '/' :: rest => dropFileScheme rest
  | c :: rest => c :: dropFileScheme rest
  | [] => []

/-- Per-document parts appended by the loop in
`LSPHandlers._build_secondary_context`. -/
def tabParts : List (PyStr × PyStr) → PyStr → List PyStr
  | [], _ => []
  | (uri, text) :: rest, currentUri =>
    if uri = currentUri then tabParts rest currentUri
    else
      let filePath := dropFileScheme uri
      let language := languageFromUri uri
      let summary := extractFileSummary text language
      let hdr := '\n' :: "--- ".data ++ filePath ++ " (".data ++ language ++ ") ---".data
      (hdr :: if summary ≠ [] then [summary] else []) ++ tabParts rest currentUri

/-- Transcription of `LSPHandlers._build_secondary_context`. -/
def buildSecondaryContext (h : HState) (currentUri : PyStr) : PyStr :=
  if h.store.length ≤ 1 then []
  else
    let parts := "=== Open Tabs (Secondary Context) ===".data :: tabParts h.store currentUri
    if 1 < parts.length then joinLines parts else []

/-- Transcription of `LSPHandlers.MAX_PROJECT_FILES`. -/
def maxProjectFiles : Nat := 200

/-- Transcription of `LSPHandlers._build_project_scope`. -/
def buildProjectScope (git : Option GitO) : PyStr :=
  match git with
  | none => []
  | some g =>
    let files := listProjectFiles g
    if files = [] then []
    else
      let files2 := if maxProjectFiles < files.length then files.take maxProjectFiles else files
      "=== Project Files ===\n".data ++ joinLines files2

/-- Word characters of the regex class `\w` (ASCII range, which is all the
server's inputs use). -/
def isWordChar (c : Char) : Bool := c.isAlphanum || c = '_'

/-- Model of `re.sub(r"^```\w*\n?", "", text)`: the pattern is anchored at
the start, so at most the leading fence marker is removed. -/
def stripFenceStart (s : PyStr) : PyStr :=
  if s.take 3 = "```".data then
    let r := (s.drop 3).dropWhile isWordChar
    match r with
    | '\n' :: r' => r'
    | _ => r
  else s

/-- Model of `re.sub(r"\n?```$", "", text)`: Python's `$` matches at the end
of the string and just before a single trailing newline, so the leftmost
match removes a trailing fence (plus one preceding newline), keeping a final
newline when the fence sat before it. -/
def stripFenceEnd (s : PyStr) : PyStr :=
  let r := s.reverse
  if r.take 3 = ['`', '`', '`'] then
    let r2 := r.drop 3
    let r3 := if r2.head? = some '\n' then r2.tail else r2
    r3.reverse
  else if r.take 4 = ['\n', '`', '`', '`'] then
    let r2 := r.drop 4
    let r3 := if r2.head? = some '\n' then r2.tail else r2
    ('\n' :: r3).reverse
  else s

/-- Model of `re.sub(r"^(Completion:|Output:|Result:)\s*", "", text,
flags=re.IGNORECASE)`: anchored, case-insensitive, eats trailing regex
whitespace greedily. -/
def stripLabel (s : PyStr) : PyStr :=
  if pyLower (s.take 11) = "completion:".data then (s.drop 11).dropWhile isPySpace
  else if pyLower (s.take 7) = "output:".data then (s.drop 7).dropWhile isPySpace
  else if pyLower (s.take 7) = "result:".data then (s.drop 7).dropWhile isPySpace
  else s

/-- A line that Python's `line.strip()` reduces to the empty string. -/
def isBlankLine (l : PyStr) : Bool := pyStrip l = []

/-- The blank-line trimming loop at the end of
`LSPHandlers._clean_completion`. -/
def trimBlankLines (ls : List PyStr) : List PyStr :=
  ((ls.dropWhile isBlankLine).reverse.dropWhile isBlankLine).reverse

/-- Transcription of `LSPHandlers._clean_completion`. -/
def cleanCompletion (text : PyStr) : PyStr :=
  joinLines (trimBlankLines (splitLines (stripLabel (stripFenceEnd (stripFenceStart text)))))

/-- Transcription of `LSPHandlers._get_word_at_position`. -/
def getWordAtPosition (line : PyStr) (char : Nat) : PyStr :=
  if line = [] || line.length < char then []
  else
    ((line.take char).reverse.takeWhile isWordChar).reverse ++
      (line.drop char).takeWhile isWordChar

/-- Label of the produced completion item (first line, truncated at 50). -/
def completionLabel (completion : PyStr) : PyStr :=
  let firstLine := (splitLines completion).headD []
  if 50 < firstLine.length then firstLine.take 50 ++ "...".data else firstLine

/-- The completion-item dict built by `LSPHandlers.handle_completion`. -/
def completionItemJson (language completion : PyStr) : Json :=
  Json.obj
    [("label".data, .str (completionLabel completion)),
     ("kind".data, .num 1),
     ("detail".data, .str "AI Completion (gopilot)".data),
     ("insertText".data, .str completion),
     ("insertTextFormat".data, .num 1),
     ("documentation".data, .obj
       [("kind".data, .str "markdown".data),
        ("value".data, .str ("```".data ++ language ++ '\n' :: completion ++ "\n```".data))])]

/-- Transcription of `LSPHandlers.handle_completion`.  The second component
records whether the Ollama backend was invoked (`self.ollama.complete_code`),
so "without calling the backend" is the flag being `false`. -/
def handleCompletion (ol : OllamaO) (git : Option GitO) (h : HState)
    (uri : PyStr) (lineNum charNum : Nat) : List Json × Bool :=
  match getDocument h uri with
  | none => ([], false)
  | some document =>
    if document = [] then ([], false)
    else
      let lines := splitLines document
      let scope := buildLocalScope h.contextLines lines lineNum charNum
      let secondaryContext := buildSecondaryContext h uri
      let projectContext := buildProjectScope git
      let language := languageFromUri uri
      match ol.completeCode scope.1 scope.2.1 language scope.2.2 secondaryContext projectContext with
      | none => ([], true)
      | some completion =>
        if completion = [] then ([], true)
        else
          let cleaned := cleanCompletion completion
          if pyStrip cleaned = [] then ([], true)
          else ([completionItemJson language cleaned], true)

/-- Transcription of `LSPHandlers.handle_hover`.  The second component
records whether the Ollama backend was invoked (`self.ollama.explain_code`). -/
def handleHover (ol : OllamaO) (h : HState) (uri : PyStr) (lineNum charNum : Nat) :
    Option Json × Bool :=
  match getDocument h uri with
  | none => (none, false)
  | some document =>
    if document = [] then (none, false)
    else
      let lines := splitLines document
      match lines.get? lineNum with
      | none => (none, false)
      | some line =>
        let word := getWordAtPosition line charNum
        if word = [] then (none, false)
        else
          let startLine := lineNum - 5
          let endLine := min lines.length (lineNum + 5)
          let context := joinLines ((lines.drop startLine).take (endLine - startLine))
          let language := languageFromUri uri
          match ol.explainCode context language with
          | none => (none, true)
          | some explanation =>
            (some (Json.obj
              [("contents".data, .obj
                [("kind".data, .str "markdown".data),
                 ("value".data,
                  .str ("**AI Explanation (gopilot)**\n\n".data ++ explanation))]),
               ("range".data, .obj
                [("start".data, .obj
                  [("line".data, .num (lineNum : Int)), ("character".data, .num 0)]),
                 ("end".data, .obj
                  [("line".data, .num (lineNum : Int)),
                   ("character".data, .num (line.length : Int))])])]), true)

/-!
Agent (`src/gopilot/agent.py`).
-/

/-- Transcription of `_MAX_DIFF_CHARS`. -/
def maxDiffChars : Nat := 4000

/-- Transcription of `agent._truncate`. -/
def pyTruncate (text : PyStr) : PyStr :=
  if text.length ≤ maxDiffChars then text else text.take maxDiffChars ++ "\n... (truncated)".data

/-- Python `sep.join(parts)`. -/
def joinWith (sep : PyStr) : List PyStr → PyStr
  | [] => []
  | [l] => l
  | l :: ls => l ++ sep ++ joinWith sep ls

/-- Transcription of `CopilotAgent.process_query`.  The boolean records
whether `ollama.generate` was called. -/
def processQuery (ol : OllamaO) (g : GitO) (query : PyStr) : Option PyStr × Bool :=
  let status := getStatusSummary g
  let contextParts :=
    ["Current branch: ".data ++ (match status.branch with | some b => b | none => "None".data),
     "Local branches: ".data ++ joinWith ", ".data status.branches] ++
    (if status.stagedFiles ≠ [] then
      ["Staged files: ".data ++ joinWith ", ".data status.stagedFiles] else []) ++
    (if status.unstagedFiles ≠ [] then
      ["Unstaged files: ".data ++ joinWith ", ".data status.unstagedFiles] else []) ++
    (if status.recentCommits ≠ [] then
      ["Recent commits:\n".data ++ joinLines status.recentCommits] else [])
  let contextText := joinLines contextParts
  let system :=
    "You are a GitHub Copilot-style agent embedded in a developer's ".data ++
    "local environment. You have access to the git repository context ".data ++
    "shown below. Answer the developer's question concisely and helpfully.\n\n".data ++
    "Repository context:\n".data ++ contextText
  (ol.generate query (some system), true)

/-- Transcription of `CopilotAgent.review_changes`.  The boolean records
whether `ollama.generate` was called (so the backend is untouched exactly
when it is `false`). -/
def reviewChanges (ol : OllamaO) (g : GitO) (baseBranch : Option PyStr) : Option PyStr × Bool :=
  let diff :=
    if !optStrFalsy baseBranch then
      getDiff g baseBranch none false false
    else
      let d1 := getStagedDiff g
      if optStrFalsy d1 then getDiff g none none false false else d1
  if optStrFalsy diff then (some "No changes detected to review.".data, false)
  else
    let system :=
      "You are a senior code reviewer. Review the following diff and ".data ++
      "provide actionable feedback. Focus on bugs, readability, ".data ++
      "performance, and security. Be concise.".data
    let prompt := "Review this diff:\n```diff\n".data ++ pyTruncate (diff.getD []) ++ "\n```".data
    (ol.generate prompt (some system), true)

/-- Transcription of `CopilotAgent.suggest_commit_message`. -/
def suggestCommitMessage (ol : OllamaO) (g : GitO) : Option PyStr × Bool :=
  let d1 := getStagedDiff g
  let diff := if optStrFalsy d1 then getDiff g none none false false else d1
  if optStrFalsy diff then (some "No changes detected.".data, false)
  else
    let system :=
      "You are a commit message generator. Based on the diff provided, ".data ++
      "write a clear, conventional commit message. Use the format:\n".data ++
      "<type>(<scope>): <description>\n\n<body>\n\n".data ++
      "Types: feat, fix, docs, style, refactor, test, chore.".data
    let prompt :=
      "Generate a commit message for:\n```diff\n".data ++ pyTruncate (diff.getD []) ++ "\n```".data
    (ol.generate prompt (some system), true)

/-- Transcription of `CopilotAgent.explain_diff`. -/
def explainDiff (ol : OllamaO) (g : GitO) (base : PyStr) (target : Option PyStr) :
    Option PyStr × Bool :=
  let diff := getDiff g (some base) target false false
  if optStrFalsy diff then
    (some "No differences found between the specified branches.".data, false)
  else
    let commits := getBranchCommits g base target 50
    let commitsText := if commits ≠ [] then joinLines commits else "(no unique commits)".data
    let system :=
      "You are a technical writer. Explain the following code changes ".data ++
      "between two git branches in clear, concise language suitable for ".data ++
      "a pull request description.".data
    let prompt :=
      "Commits:\n".data ++ commitsText ++ "\n\n".data ++
      "Diff:\n```diff\n".data ++ pyTruncate (diff.getD []) ++ "\n```".data
    (ol.generate prompt (some system), true)

/-- Transcription of `CopilotAgent.summarize_branch`. -/
def summarizeBranch (ol : OllamaO) (g : GitO) (branch : Option PyStr) : Option PyStr × Bool :=
  let branch2 := if !optStrFalsy branch then branch else getCurrentBranch g
  if optStrFalsy branch2 then (none, false)
  else
    let b := branch2.getD []
    let commits := getCommitLog g 20 (some b) true
    if commits = [] then
      (some ("No commits found on branch '".data ++ b ++ "'.".data), false)
    else
      let system :=
        "You are a project manager assistant. Summarize the work done ".data ++
        "on this branch based on the commit history. Be concise.".data
      let prompt := "Branch: ".data ++ b ++ "\nCommits:\n".data ++ joinLines commits
      (ol.generate prompt (some system), true)

/-- JSON dict lookup for object members. -/
def jAssocGet : List (PyStr × Json) → PyStr → Option Json
  | [], _ => none
  | (k', v) :: rest, k => if k' = k then some v else jAssocGet rest k

/-- Python `request.get(k)` on a decoded JSON message (the server only ever
receives dict messages; lookup on a non-dict raises in Python and is outside
the model). -/
def jget (j : Json) (k : PyStr) : Option Json :=
  match j with
  | .obj ms => jAssocGet ms k
  | _ => none

/-- Python `request.get(k, default)`. -/
def jgetD (j : Json) (k : PyStr) (d : Json) : Json := (jget j k).getD d

/-- Coerce a JSON value that the code uses as a `str` (all exercised inputs
are strings; Python would propagate a non-string value as-is). -/
def jstrD : Json → PyStr
  | .str s => s
  | _ => []

/-- Coerce a JSON value used as an LSP position component (a non-negative
integer in every exercised input). -/
def jnatD (j : Option Json) (d : Nat) : Nat :=
  match j with
  | some (.num n) => n.toNat
  | _ => d

/-- Status summary as the JSON value the `status` agent action returns. -/
def statusSummaryJson (st : StatusSummary) : Json :=
  Json.obj
    [("branch".data, match st.branch with | some b => .str b | none => .null),
     ("branches".data, .arr (st.branches.map .str)),
     ("staged_files".data, .arr (st.stagedFiles.map .str)),
     ("unstaged_files".data, .arr (st.unstagedFiles.map .str)),
     ("recent_commits".data, .arr (st.recentCommits.map .str))]

/-- Envelope for a text-producing agent action (`result` or `error`). -/
def agentTextResult : Option PyStr → Json
  | none => Json.obj [("error".data, .str "Failed to generate response (Ollama unreachable?)".data)]
  | some t => Json.obj [("result".data, .str t)]

/-- Optional-string parameter of an agent action: absent or `null` is
Python `None`. -/
def jOptStr (j : Option Json) : Option PyStr :=
  match j with
  | some .null => none
  | some v => some (jstrD v)
  | none => none

/-- Transcription of `CopilotAgent.handle_agent_request`. -/
def handleAgentRequest (ol : OllamaO) (g : GitO) (action : PyStr) (params : Json) : Json :=
  if action = "query".data then
    agentTextResult (processQuery ol g (jstrD (jgetD params "query".data (.str [])))).1
  else if action = "review".data then
    agentTextResult (reviewChanges ol g (jOptStr (jget params "base_branch".data))).1
  else if action = "commit_message".data then
    agentTextResult (suggestCommitMessage ol g).1
  else if action = "explain_diff".data then
    agentTextResult (explainDiff ol g (jstrD (jgetD params "base".data (.str "main".data)))
      (jOptStr (jget params "target".data))).1
  else if action = "summarize_branch".data then
    agentTextResult (summarizeBranch ol g (jOptStr (jget params "branch".data))).1
  else if action = "status".data then
    Json.obj [("result".data, statusSummaryJson (getStatusSummary g))]
  else
    Json.obj [("error".data, .str ("Unknown agent action: ".data ++ action))]

/-!
Server dispatch (`src/gopilot/server.py`, class `LSPServer`).
-/

/-- Immutable collaborators of the running server: the Ollama client, the
`GitContext` built at construction time, and a factory giving the
`GitContext` bound to a client-provided root path. -/
structure Ctx where
  ollama : OllamaO
  git0 : GitO
  gitAt : PyStr → GitO

/-- Mutable server state: handler state, the handlers' git context, the
agent (present iff `self.agent is not None`), and the lifecycle flags. -/
structure SState where
  hstate : HState
  hgit : Option GitO
  agent : Option GitO
  initialized : Bool
  shutdownRequested : Bool

/-- State after `LSPServer.__init__`. -/
def initServer (ctx : Ctx) (contextLines : Nat := 50) : SState :=
  let gitEnabled := isGitRepo ctx.git0
  { hstate := { contextLines := contextLines, store := [] }
    hgit := if gitEnabled then some ctx.git0 else none
    agent := if gitEnabled then some ctx.git0 else none
    initialized := false
    shutdownRequested := false }

/-- The `self._capabilities` dict. -/
def serverCapabilities : Json :=
  Json.obj
    [("textDocumentSync".data, .obj
      [("openClose".data, .bool true), ("change".data, .num 1),
       ("save".data, .obj [("includeText".data, .bool true)])]),
     ("completionProvider".data, .obj
      [("triggerCharacters".data, .arr
        [.str ".".data, .str "(".data, .str "[".data, .str "\x7b".data,
         .str ",".data, .str " ".data, .str ":".data]),
       ("resolveProvider".data, .bool false)]),
     ("hoverProvider".data, .bool true)]

/-- Python truthiness of a decoded JSON value. -/
def jsonTruthy : Json → Bool
  | .null => false
  | .bool b => b
  | .num n => n ≠ 0
  | .str s => s ≠ []
  | .arr es => es ≠ []
  | .obj ms => ms ≠ []

/-- Python `root_uri.removeprefix("file://")`. -/
def removeFileScheme (s : PyStr) : PyStr :=
  if s.take 7 = "file://".data then s.drop 7 else s

/-- Transcription of `LSPServer._handle_initialize` (rebinding the git
context replaces the handlers, which empties the document store). -/
def handleInitialize (ctx : Ctx) (st : SState) (params : Json) : Json × SState :=
  let rootUri := jgetD params "rootUri".data (jgetD params "rootPath".data (.str []))
  let st2 :=
    if jsonTruthy rootUri then
      let repoPath := removeFileScheme (jstrD rootUri)
      let g := ctx.gitAt repoPath
      let gitEnabled := isGitRepo g
      { st with
        hstate := { contextLines := st.hstate.contextLines, store := [] }
        hgit := if gitEnabled then some g else none
        agent := if gitEnabled then some g else st.agent }
    else st
  let serverInfo :=
    [("name".data, Json.str "gopilot".data), ("version".data, Json.str "0.1.0".data)] ++
    (match st2.agent with
     | some _ =>
       [("agentCapabilities".data, Json.obj
         [("actions".data, Json.arr
           [.str "query".data, .str "review".data, .str "commit_message".data,
            .str "explain_diff".data, .str "summarize_branch".data, .str "status".data])])]
     | none => [])
  (Json.obj [("capabilities".data, serverCapabilities), ("serverInfo".data, .obj serverInfo)], st2)

/-- Transcription of `LSPServer._create_response`. -/
def mkResponse (rid : Json) (result : Json) : Json :=
  Json.obj [("jsonrpc".data, .str "2.0".data), ("id".data, rid), ("result".data, result)]

/-- Transcription of `LSPServer._create_error_response`. -/
def mkErrorResponse (rid : Json) (code : Int) (message : PyStr) : Json :=
  Json.obj [("jsonrpc".data, .str "2.0".data), ("id".data, rid),
    ("error".data, .obj [("code".data, .num code), ("message".data, .str message)])]

/-- Python rendering of the method value inside the `Method not found`
message (exact for strings, which is the only exercised case). -/
def pyStrOfJson : Json → PyStr
  | .str s => s
  | j => dumps j

/-- The `request.get("id")` value: a JSON `null` decodes to Python `None`,
so it fails the `request_id is not None` test just like a missing id. -/
def requestIdOf (req : Json) : Option Json :=
  match jget req "id".data with
  | some .null => none
  | x => x

/-- The method names the dispatcher in `LSPServer.handle_request`
recognizes. -/
def recognizedMethods : List PyStr :=
  ["initialize".data, "initialized".data, "shutdown".data, "exit".data,
   "textDocument/didOpen".data, "textDocument/didChange".data,
   "textDocument/didSave".data, "textDocument/didClose".data,
   "textDocument/completion".data, "textDocument/hover".data,
   "gopilot/agent".data, "$/cancelRequest".data]

/-- Transcription of `LSPServer.handle_request`: returns the optional
response, the new state, and `some code` when the `exit` notification calls
`sys.exit(code)`. -/
def handleRequest (ctx : Ctx) (st : SState) (req : Json) : Option Json × SState × Option Int :=
  let method := jgetD req "method".data (.str [])
  let params := jgetD req "params".data (.obj [])
  let requestId := requestIdOf req
  if method = Json.str "initialize".data then
    let r := handleInitialize ctx st params
    (requestId.map (fun rid => mkResponse rid r.1), r.2, none)
  else if method = Json.str "initialized".data then
    (none, { st with initialized := true }, none)
  else if method = Json.str "shutdown".data then
    (requestId.map (fun rid => mkResponse rid Json.null), { st with shutdownRequested := true }, none)
  else if method = Json.str "exit".data then
    (none, st, some (if st.shutdownRequested then 0 else 1))
  else if method = Json.str "textDocument/didOpen".data then
    let td := jgetD params "textDocument".data (.obj [])
    let uri := jstrD (jgetD td "uri".data (.str []))
    let text := jstrD (jgetD td "text".data (.str []))
    (none, { st with hstate := storeDocument st.hstate uri text }, none)
  else if method = Json.str "textDocument/didChange".data then
    let td := jgetD params "textDocument".data (.obj [])
    let uri := jstrD (jgetD td "uri".data (.str []))
    (match jgetD params "contentChanges".data (.arr []) with
     | .arr (c :: cs) =>
       let text := jstrD (jgetD (cs.getLastD c) "text".data (.str []))
       (none, { st with hstate := storeDocument st.hstate uri text }, none)
     | _ => (none, st, none))
  else if method = Json.str "textDocument/didSave".data then
    let td := jgetD params "textDocument".data (.obj [])
    let uri := jstrD (jgetD td "uri".data (.str []))
    (match jget params "text".data with
     | some .null => (none, st, none)
     | some t => (none, { st with hstate := storeDocument st.hstate uri (jstrD t) }, none)
     | none => (none, st, none))
  else if method = Json.str "textDocument/didClose".data then
    let td := jgetD params "textDocument".data (.obj [])
    let uri := jstrD (jgetD td "uri".data (.str []))
    (none, { st with hstate := removeDocument st.hstate uri }, none)
  else if method = Json.str "textDocument/completion".data then
    let td := jgetD params "textDocument".data (.obj [])
    let uri := jstrD (jgetD td "uri".data (.str []))
    let pos := jgetD params "position".data (.obj [])
    let lineNum := jnatD (jget pos "line".data) 0
    let charNum := jnatD (jget pos "character".data) 0
    let items := (handleCompletion ctx.ollama st.hgit st.hstate uri lineNum charNum).1
    let result := Json.obj [("isIncomplete".data, .bool false), ("items".data, .arr items)]
    (requestId.map (fun rid => mkResponse rid result), st, none)
  else if method = Json.str "textDocument/hover".data then
    let td := jgetD params "textDocument".data (.obj [])
    let uri := jstrD (jgetD td "uri".data (.str []))
    let pos := jgetD params "position".data (.obj [])
    let lineNum := jnatD (jget pos "line".data) 0
    let charNum := jnatD (jget pos "character".data) 0
    let result := (handleHover ctx.ollama st.hstate uri lineNum charNum).1.getD Json.null
    (requestId.map (fun rid => mkResponse rid result), st, none)
  else if method = Json.str "gopilot/agent".data then
    let result :=
      match st.agent with
      | none => Json.obj [("error".data, .str "Agent not available (not a git repository)".data)]
      | some g =>
        let action := jstrD (jgetD params "action".data (.str []))
        let actionParams := jgetD params "params".data (.obj [])
        handleAgentRequest ctx.ollama g action actionParams
    (requestId.map (fun rid => mkResponse rid result), st, none)
  else if method = Json.str "$/cancelRequest".data then
    (none, st, none)
  else
    match requestId with
    | some rid =>
      (some (mkErrorResponse rid (-32601) ("Method not found: ".data ++ pyStrOfJson method)),
       st, none)
    | none => (none, st, none)

/-!
Transports (`src/gopilot/server.py`, classes `StdioTransport` and
`TCPTransport`).  Standard input is a text stream of characters; the TCP
buffer holds raw bytes.
-/

/-- Python text-mode `readline`: the returned line includes the newline. -/
def pyReadline : PyStr → PyStr × PyStr
  | [] => ([], [])
  | c :: rest =>
    if c = '\n' then ([c], rest)
    else
      let r := pyReadline rest
      (c :: r.1, r.2)

/-- Python `line.split(":", 1)` restricted to lines that contain a colon
(`none` when they do not, matching the `if ":" in line` guard). -/
def splitColonOnce : PyStr → Option (PyStr × PyStr)
  | [] => none
  | c :: rest =>
    if c = ':' then some ([], rest)
    else
      match splitColonOnce rest with
      | some p => some (c :: p.1, p.2)
      | none => none

/-- Python `int(s)` on a string (sign and decimal digits; underscores in
numeric literals are not modelled). -/
def pyIntParse (s : PyStr) : Option Int :=
  let t := pyStrip s
  if t.head? = some '-' then
    (if t.tail ≠ [] ∧ t.tail.all Char.isDigit then some (-(decVal t.tail : Int)) else none)
  else if t.head? = some '+' then
    (if t.tail ≠ [] ∧ t.tail.all Char.isDigit then some (decVal t.tail : Int) else none)
  else if t ≠ [] ∧ t.all Char.isDigit then some (decVal t : Int) else none

/-- Python text-mode `read(n)`: a negative count reads the whole stream. -/
def pyRead (n : Int) (s : PyStr) : PyStr × PyStr :=
  if n < 0 then (s, []) else (s.take n.toNat, s.drop n.toNat)

/-- Header-reading loop of `StdioTransport._read_message` (fuel bounds the
iteration count; each iteration consumes at least one character). -/
def readHeaders : Nat → PyStr → List (PyStr × PyStr) → Option (List (PyStr × PyStr) × PyStr)
  | 0, _, _ => none
  | fuel + 1, s, acc =>
    let r := pyReadline s
    if r.1 = [] then none
    else
      let line := pyStrip r.1
      if line = [] then some (acc, r.2)
      else
        match splitColonOnce line with
        | some kv => readHeaders fuel r.2 (assocSet acc (pyLower (pyStrip kv.1)) (pyStrip kv.2))
        | none => readHeaders fuel r.2 acc

/-- Transcription of `StdioTransport._read_message`: the decoded message (or
`none` on EOF, a missing/zero/invalid `Content-Length`, or a JSON decode
error) and the remaining stream. -/
def readMessage (s : PyStr) : Option Json × PyStr :=
  match readHeaders (s.length + 1) s [] with
  | none => (none, [])
  | some (headers, s2) =>
    let cl :=
      match assocGet headers "content-length".data with
      | some v => pyIntParse v
      | none => some 0
    match cl with
    | none => (none, s2)
    | some n =>
      if n = 0 then (none, s2)
      else
        let rd := pyRead n s2
        if rd.1 = [] then (none, rd.2)
        else (loads rd.1, rd.2)

/-- UTF-8 length of one character. -/
def utf8Len1 (c : Char) : Nat :=
  if c.toNat < 0x80 then 1
  else if c.toNat < 0x800 then 2
  else if c.toNat < 0x10000 then 3
  else 4

/-- UTF-8 byte length of a string (`len(content.encode("utf-8"))`). -/
def utf8Len : PyStr → Nat
  | [] => 0
  | c :: rest => utf8Len1 c + utf8Len rest

/-- Transcription of `StdioTransport._write_message`: header then body on
the text stream. -/
def writeMessage (m : Json) : PyStr :=
  let content := dumps m
  "Content-Length: ".data ++ natToDec (utf8Len content) ++ "\r\n\r\n".data ++ content

/-- The `StdioTransport.start` read-dispatch loop: collects the responses
written to stdout; stops when `_read_message` returns `None` or `exit`
raises `SystemExit` (which `except Exception` does not catch). -/
def stdioLoop (ctx : Ctx) : Nat → SState → PyStr → List Json → List Json × SState
  | 0, st, _, acc => (acc.reverse, st)
  | fuel + 1, st, stream, acc =>
    match readMessage stream with
    | (none, _) => (acc.reverse, st)
    | (some msg, stream2) =>
      let r := handleRequest ctx st msg
      match r.2.2 with
      | some _ => (acc.reverse, r.2.1)
      | none =>
        match r.1 with
        | some resp => stdioLoop ctx fuel r.2.1 stream2 (resp :: acc)
        | none => stdioLoop ctx fuel r.2.1 stream2 acc

/-- Run the stdio transport on a finite input stream. -/
def stdioRun (ctx : Ctx) (st : SState) (stream : PyStr) : List Json × SState :=
  stdioLoop ctx (stream.length + 1) st stream []

/-- Raw bytes of the TCP buffer. -/
abbrev Bytes := List Nat

/-- UTF-8 encoding of one character. -/
def utf8EncodeChar (c : Char) : Bytes :=
  let n := c.toNat
  if n < 0x80 then [n]
  else if n < 0x800 then [0xc0 + n / 64, 0x80 + n % 64]
  else if n < 0x10000 then [0xe0 + n / 4096, 0x80 + n / 64 % 64, 0x80 + n % 64]
  else [0xf0 + n / 0x40000, 0x80 + n / 4096 % 64, 0x80 + n / 64 % 64, 0x80 + n % 64]

/-- Python `s.encode("utf-8")`. -/
def utf8Encode : PyStr → Bytes
  | [] => []
  | c :: rest => utf8EncodeChar c ++ utf8Encode rest

/-- Python `bytes.decode("utf-8")` (strict): rejects malformed leads,
truncated or malformed continuations, overlong forms and surrogates. -/
def utf8Decode : Nat → Bytes → Option PyStr
  | 0, _ => none
  | _ + 1, [] => some []
  | fuel + 1, b :: rest =>
    if b < 0x80 then
      match utf8Decode fuel rest with
      | some s => some (Char.ofNat b :: s)
      | none => none
    else if 0xc2 ≤ b ∧ b < 0xe0 then
      match rest with
      | b1 :: rest1 =>
        if 0x80 ≤ b1 ∧ b1 < 0xc0 then
          match utf8Decode fuel rest1 with
          | some s => some (Char.ofNat ((b - 0xc0) * 64 + (b1 - 0x80)) :: s)
          | none => none
        else none
      | [] => none
    else if 0xe0 ≤ b ∧ b < 0xf0 then
      match rest with
      | b1 :: b2 :: rest2 =>
        if (0x80 ≤ b1 ∧ b1 < 0xc0) ∧ (0x80 ≤ b2 ∧ b2 < 0xc0) then
          let v := (b - 0xe0) * 4096 + (b1 - 0x80) * 64 + (b2 - 0x80)
          if v < 0x800 ∨ (0xd800 ≤ v ∧ v ≤ 0xdfff) then none
          else
            match utf8Decode fuel rest2 with
            | some s => some (Char.ofNat v :: s)
            | none => none
        else none
      | _ => none
    else if 0xf0 ≤ b ∧ b < 0xf5 then
      match rest with
      | b1 :: b2 :: b3 :: rest3 =>
        if (0x80 ≤ b1 ∧ b1 < 0xc0) ∧ (0x80 ≤ b2 ∧ b2 < 0xc0) ∧ (0x80 ≤ b3 ∧ b3 < 0xc0) then
          let v := (b - 0xf0) * 0x40000 + (b1 - 0x80) * 4096 + (b2 - 0x80) * 64 + (b3 - 0x80)
          if v < 0x10000 ∨ 0x10ffff < v then none
          else
            match utf8Decode fuel rest3 with
            | some s => some (Char.ofNat v :: s)
            | none => none
        else none
      | _ => none
    else none

/-- Python `bytes.decode("utf-8")`. -/
def bytesDecodeUtf8 (bs : Bytes) : Option PyStr := utf8Decode (bs.length + 1) bs

/-- Index of the first `\r\n\r\n` in the buffer (`buffer.find(b"\r\n\r\n")`). -/
def findCRLFCRLF : Bytes → Option Nat
  | [] => none
  | b :: rest =>
    if b = 13 ∧ rest.take 3 = [10, 13, 10] then some 0
    else (findCRLFCRLF rest).map (· + 1)

/-- Python `headers_raw.split("\r\n")`. -/
def splitCRLF : PyStr → List PyStr
  | [] => [[]]
  | c :: rest =>
    if c = '\r' ∧ rest.head? = some '\n' then [] :: splitCRLF rest.tail
    else
      match splitCRLF rest with
      | l :: ls => (c :: l) :: ls
      | [] => [[c]]
termination_by s => s.length
decreasing_by
  · simp [List.length_tail]; omega
  · simp

/-- The header-line loop of `TCPTransport._parse_message`. -/
def parseHeaderLines : List PyStr → List (PyStr × PyStr) → List (PyStr × PyStr)
  | [], acc => acc
  | line :: rest, acc =>
    match splitColonOnce line with
    | some kv => parseHeaderLines rest (assocSet acc (pyLower (pyStrip kv.1)) (pyStrip kv.2))
    | none => parseHeaderLines rest acc

/-- Transcription of `TCPTransport._parse_message`: one complete frame from
the buffer, or `(none, buffer)` with the buffer unchanged when no complete
frame is available or any step of decoding fails. -/
def parseMessage (buffer : Bytes) : Option Json × Bytes :=
  match findCRLFCRLF buffer with
  | none => (none, buffer)
  | some headerEnd =>
    match bytesDecodeUtf8 (buffer.take headerEnd) with
    | none => (none, buffer)
    | some headersRaw =>
      let headers := parseHeaderLines (splitCRLF headersRaw) []
      let cl :=
        match assocGet headers "content-length".data with
        | some v => pyIntParse v
        | none => some 0
      match cl with
      | none => (none, buffer)
      | some n =>
        if n = 0 then (none, buffer)
        else
          let contentStart := headerEnd + 4
          if (buffer.length : Int) < (contentStart : Int) + n then (none, buffer)
          else
            match bytesDecodeUtf8 ((buffer.drop contentStart).take n.toNat) with
            | none => (none, buffer)
            | some content =>
              match loads content with
              | some msg => (some msg, buffer.drop (contentStart + n.toNat))
              | none => (none, buffer)

/-- Transcription of `TCPTransport._send_message`: the bytes put on the
socket for one message. -/
def sendMessageBytes (m : Json) : Bytes :=
  let content := dumps m
  let contentBytes := utf8Encode content
  utf8Encode ("Content-Length: ".data ++ natToDec contentBytes.length ++ "\r\n\r\n".data) ++
    contentBytes

/-- Result of draining complete frames from the TCP buffer. -/
structure TcpStep where
  state : SState
  buffer : Bytes
  responses : List Json
  exitCode : Option Int

/-- The inner `while True` of `TCPTransport._handle_client`: extract and
dispatch complete frames until `_parse_message` yields no message.
Responses accumulate most recent first. -/
def tcpInnerLoop (ctx : Ctx) : Nat → SState → Bytes → List Json → TcpStep
  | 0, st, buf, acc => ⟨st, buf, acc, none⟩
  | fuel + 1, st, buf, acc =>
    match parseMessage buf with
    | (none, buf2) => ⟨st, buf2, acc, none⟩
    | (some msg, buf2) =>
      let r := handleRequest ctx st msg
      match r.2.2 with
      | some e => ⟨r.2.1, buf2, acc, some e⟩
      | none =>
        match r.1 with
        | some resp => tcpInnerLoop ctx fuel r.2.1 buf2 (resp :: acc)
        | none => tcpInnerLoop ctx fuel r.2.1 buf2 acc

/-- The receive loop of `TCPTransport._handle_client`: each element of
`chunks` is one `recv` result; an empty chunk is a peer close.  Returns the
responses sent, the final state and the final (undrained) buffer. -/
def tcpClientLoop (ctx : Ctx) : SState → List Bytes → Bytes → List Json → List Json × SState × Bytes
  | st, [], buf, acc => (acc.reverse, st, buf)
  | st, chunk :: chunks, buf, acc =>
    if chunk = [] then (acc.reverse, st, buf)
    else
      let r := tcpInnerLoop ctx ((buf ++ chunk).length + 1) st (buf ++ chunk) []
      match r.exitCode with
      | some _ => ((r.responses ++ acc).reverse, r.state, r.buffer)
      | none => tcpClientLoop ctx r.state chunks r.buffer (r.responses ++ acc)

/-- Run a whole TCP client connection from an empty buffer. -/
def tcpClientRun (ctx : Ctx) (st : SState) (chunks : List Bytes) : List Json × SState × Bytes :=
  tcpClientLoop ctx st chunks [] []

/-!
Claim theorems.
-/

/-- Constant backend oracle used by concrete witnesses (every call fails). -/
def olConst : OllamaO :=
  { completeCode := fun _ _ _ _ _ _ => none
    explainCode := fun _ _ => none
    generate := fun _ _ => none
    healthCheck := false
    listModels := [] }

/-- Git oracle whose every command returns empty output. -/
def gitEmptyOut : GitO := { runGit := fun _ => some [] }

/-- C3: for every document (list of lines) and cursor line at or beyond the
document's line count, local-scope extraction returns empty "after" text,
empty cursor prefix, a "before" text equal to the preceding window (the
lines from `lineNum - W` on, which ends at the document's last line and has
at most `W` lines), and no error (the function is total). -/
theorem c3_local_scope_cursor_beyond_document (W : Nat) (lines : List PyStr)
    (lineNum charNum : Nat) (h : lines.length ≤ lineNum) :
    buildLocalScope W lines lineNum charNum =
      (joinLines (lines.drop (lineNum - W)), [], []) ∧
    (lines.drop (lineNum - W)).length ≤ W := by
  constructor
  · unfold buildLocalScope
    rw [List.get?_eq_none.mpr h]
    have h1 : (lines.drop (lineNum - W)).take (lineNum - (lineNum - W)) =
        lines.drop (lineNum - W) := by
      apply List.take_of_length_le
      simp only [List.length_drop]
      omega
    have h2 : lines.drop (lineNum + 1) = [] := List.drop_eq_nil_of_le (by omega)
    simp only [h1, h2, List.take_nil]
    rfl
  · simp only [List.length_drop]; omega

/-- Witness for C3 at a concrete document and cursor. -/
theorem c3_witness :
    (["line one".data, "line two".data] : List PyStr).length ≤ 7 ∧
    (buildLocalScope 5 ["line one".data, "line two".data] 7 3 =
      (joinLines ((["line one".data, "line two".data] : List PyStr).drop (7 - 5)), [], []) ∧
     ((["line one".data, "line two".data] : List PyStr).drop (7 - 5)).length ≤ 5) :=
  ⟨by decide, c3_local_scope_cursor_beyond_document 5 _ 7 3 (by decide)⟩

/-- C5: a completion request on a URI absent from the document store returns
the empty item list without calling the backend (the flag stays `false`),
for every backend, git context, store and cursor position; the handler is a
total function, so no error is possible. -/
theorem c5_completion_absent_uri_empty (ol : OllamaO) (git : Option GitO) (h : HState)
    (uri : PyStr) (lineNum charNum : Nat)
    (habs : assocGet h.store uri = none) :
    handleCompletion ol git h uri lineNum charNum = ([], false) := by
  unfold handleCompletion getDocument
  rw [habs]

/-- Witness for C5 on an empty store. -/
theorem c5_witness :
    assocGet (HState.mk 50 []).store "file:///missing.py".data = none ∧
    handleCompletion olConst none (HState.mk 50 []) "file:///missing.py".data 3 9 = ([], false) :=
  ⟨by decide, c5_completion_absent_uri_empty olConst none _ _ 3 9 (by decide)⟩

/-- C10: a URI stored with empty text behaves exactly like an absent one at
the completion and hover interfaces: empty completion list, no hover result,
and in both cases the backend flag stays `false` (the handlers test the
retrieved text for truthiness, and `""` is falsy). -/
theorem c10_empty_document_like_absent (ol : OllamaO) (git : Option GitO) (h : HState)
    (uri : PyStr) (lineNum charNum : Nat)
    (hemp : assocGet h.store uri = some []) :
    handleCompletion ol git h uri lineNum charNum = ([], false) ∧
    handleHover ol h uri lineNum charNum = (none, false) := by
  constructor
  · unfold handleCompletion getDocument
    rw [hemp]
    rfl
  · unfold handleHover getDocument
    rw [hemp]
    rfl

/-- Witness for C10 on a store holding one empty document. -/
theorem c10_witness :
    assocGet (HState.mk 50 [("file:///a.py".data, [])]).store "file:///a.py".data = some [] ∧
    (handleCompletion olConst none (HState.mk 50 [("file:///a.py".data, [])])
        "file:///a.py".data 0 0 = ([], false) ∧
     handleHover olConst (HState.mk 50 [("file:///a.py".data, [])])
        "file:///a.py".data 0 0 = (none, false)) :=
  ⟨by decide, c10_empty_document_like_absent olConst none _ _ 0 0 (by decide)⟩

/-- C9: when both the staged (index) diff and the working-tree diff are
empty, `review_changes()` with no base branch returns the literal string
"No changes detected to review." and never reaches the model backend (the
generate flag stays `false`), for every backend oracle. -/
theorem c9_review_no_changes (ol : OllamaO) (g : GitO)
    (h1 : g.runGit ["diff".data, "--cached".data] = some [])
    (h2 : g.runGit ["diff".data] = some []) :
    reviewChanges ol g none = (some "No changes detected to review.".data, false) := by
  unfold reviewChanges getStagedDiff getDiff
  simp [h1, h2, optStrFalsy]

/-- Witness for C9 on a repository whose git commands all report empty. -/
theorem c9_witness :
    gitEmptyOut.runGit ["diff".data, "--cached".data] = some [] ∧
    gitEmptyOut.runGit ["diff".data] = some [] ∧
    reviewChanges olConst gitEmptyOut none =
      (some "No changes detected to review.".data, false) :=
  ⟨rfl, rfl, c9_review_no_changes olConst gitEmptyOut rfl rfl⟩

/-- C7 counterexample: on the document `"def add(a, b):\n    return a"` with
cursor at line 1, character 11 and window 50, local-scope extraction does
not return the triple the claim states — character 11 is one short of the
end of the 12-character line, so the cursor prefix is `"    return "` and
the after text is `"a"`. -/
theorem c7_counterexample :
    buildLocalScope 50 ["def add(a, b):".data, "    return a".data] 1 11 ≠
      ("def add(a, b):\n    return a".data, [], "    return a".data) := by
  decide

/-- C7 amended: the scenario holds at character 12, the actual end of line 1:
before text `"def add(a, b):\n    return a"`, after text `""`, cursor prefix
`"    return a"`. -/
theorem c7_local_scope_scenario :
    buildLocalScope 50 ["def add(a, b):".data, "    return a".data] 1 12 =
      ("def add(a, b):\n    return a".data, [], "    return a".data) := by
  decide

theorem isPrefix_headq_eq {α : Type} {x a : List α} (h : x <+: a) (hx : x ≠ []) :
    x.head? = a.head? := by
  obtain ⟨t, rfl⟩ := h
  cases x with
  | nil => exact absurd rfl hx
  | cons c cs => rfl

theorem headq_dropWhile_false {α : Type} (p : α → Bool) : ∀ (l : List α) (c : α),
    (l.dropWhile p).head? = some c → p c = false := by
  intro l
  induction l with
  | nil => intro c h; simp [List.dropWhile] at h
  | cons a as ih =>
    intro c h
    rw [List.dropWhile_cons] at h
    by_cases hp : p a
    · rw [if_pos hp] at h; exact ih c h
    · rw [if_neg hp] at h
      simp only [List.head?_cons, Option.some.injEq] at h
      rw [← h]
      simpa using hp

theorem dropWhile_rdropWhile_dropWhile {α : Type} (p : α → Bool) (l : List α) :
    List.dropWhile p (List.rdropWhile p (List.dropWhile p l)) =
      List.rdropWhile p (List.dropWhile p l) := by
  cases hx : List.rdropWhile p (List.dropWhile p l) with
  | nil => simp
  | cons c cs =>
    have hxne : List.rdropWhile p (List.dropWhile p l) ≠ [] := by rw [hx]; simp
    have h1 : (List.rdropWhile p (List.dropWhile p l)).head? = some c := by rw [hx]; rfl
    have h2 := isPrefix_headq_eq (List.rdropWhile_prefix p (List.dropWhile p l)) hxne
    have h3 : (List.dropWhile p l).head? = some c := by rw [← h2, h1]
    have h4 : (List.dropWhile p (List.dropWhile p l)).head? = some c := by
      rw [List.dropWhile_idempotent]; exact h3
    have hpc := headq_dropWhile_false p (List.dropWhile p l) c h4
    rw [List.dropWhile_cons, if_neg (by simp [hpc])]

theorem trimBlankLines_eq_rdrop (ls : List PyStr) :
    trimBlankLines ls = List.rdropWhile isBlankLine (ls.dropWhile isBlankLine) := rfl

theorem trimBlankLines_idem (ls : List PyStr) :
    trimBlankLines (trimBlankLines ls) = trimBlankLines ls := by
  rw [trimBlankLines_eq_rdrop, trimBlankLines_eq_rdrop,
    dropWhile_rdropWhile_dropWhile, List.rdropWhile_idempotent]

theorem trimBlankLines_subset {x : PyStr} {ls : List PyStr} (h : x ∈ trimBlankLines ls) :
    x ∈ ls := by
  rw [trimBlankLines_eq_rdrop] at h
  have h1 := (List.rdropWhile_prefix isBlankLine _).sublist.subset h
  exact (List.dropWhile_suffix isBlankLine).sublist.subset h1

theorem splitLines_mem_no_newline : ∀ (s : PyStr) (l : PyStr), l ∈ splitLines s → '\n' ∉ l := by
  intro s
  induction s with
  | nil => intro l hl; simp [splitLines] at hl; subst hl; simp
  | cons c rest ih =>
    intro l hl
    by_cases hc : c = '\n'
    · subst hc
      simp only [splitLines, if_pos rfl] at hl
      rcases List.mem_cons.mp hl with h | h
      · subst h; simp
      · exact ih l h
    · simp only [splitLines, if_neg hc] at hl
      cases hsp : splitLines rest with
      | nil =>
        rw [hsp] at hl
        simp only [List.mem_singleton] at hl
        subst hl
        intro hmem
        simp only [List.mem_singleton] at hmem
        exact hc hmem.symm
      | cons a as =>
        rw [hsp] at hl
        rcases List.mem_cons.mp hl with h | h
        · subst h
          intro hmem
          rcases List.mem_cons.mp hmem with h2 | h2
          · exact hc h2.symm
          · exact ih a (by rw [hsp]; simp) h2
        · exact ih l (by rw [hsp]; simp [h])

theorem splitLines_no_newline (l : PyStr) (h : '\n' ∉ l) : splitLines l = [l] := by
  induction l with
  | nil => rfl
  | cons c rest ih =>
    have hc : c ≠ '\n' := fun hcc => h (by simp [hcc])
    have hr : '\n' ∉ rest := fun hm => h (by simp [hm])
    simp only [splitLines, if_neg hc, ih hr]

theorem splitLines_append_nl (l rest : PyStr) (h : '\n' ∉ l) :
    splitLines (l ++ '\n' :: rest) = l :: splitLines rest := by
  induction l with
  | nil => simp [splitLines]
  | cons c l' ih =>
    have hc : c ≠ '\n' := fun hcc => h (by simp [hcc])
    have hl' : '\n' ∉ l' := fun hm => h (by simp [hm])
    simp only [List.cons_append, splitLines, if_neg hc, List.append_eq]
    rw [ih hl']

theorem splitLines_joinLines : ∀ (ls : List PyStr), ls ≠ [] → (∀ l ∈ ls, '\n' ∉ l) →
    splitLines (joinLines ls) = ls := by
  intro ls
  induction ls with
  | nil => intro h _; exact absurd rfl h
  | cons l ls ih =>
    intro _ hmem
    cases ls with
    | nil => exact splitLines_no_newline l (hmem l (by simp))
    | cons l2 ls2 =>
      show splitLines (l ++ '\n' :: joinLines (l2 :: ls2)) = l :: l2 :: ls2
      rw [splitLines_append_nl l _ (hmem l (by simp))]
      rw [ih (by simp) (fun x hx => hmem x (by simp [hx]))]

/-- C4 counterexample: cleaning is not idempotent.  One pass over
`"Completion:Completion:x"` strips only the first label, so a second pass
strips again. -/
theorem c4_counterexample :
    cleanCompletion (cleanCompletion "Completion:Completion:x".data) ≠
      cleanCompletion "Completion:Completion:x".data := by
  decide

/-- C4 amended: cleaning is idempotent whenever the once-cleaned text is a
fixed point of the three anchored strips — it does not itself begin with a
fenced code-block marker or a Completion/Output/Result label and does not
end with a fence marker.  The final blank-line trim is idempotent
unconditionally, so a second pass then changes nothing. -/
theorem c4_clean_idempotent_conditional (x : PyStr)
    (h1 : stripFenceStart (cleanCompletion x) = cleanCompletion x)
    (h2 : stripFenceEnd (cleanCompletion x) = cleanCompletion x)
    (h3 : stripLabel (cleanCompletion x) = cleanCompletion x) :
    cleanCompletion (cleanCompletion x) = cleanCompletion x := by
  have hstep : cleanCompletion (cleanCompletion x) =
      joinLines (trimBlankLines (splitLines (cleanCompletion x))) := by
    conv_lhs => rw [cleanCompletion]
    rw [h1, h2, h3]
  rw [hstep]
  by_cases htn : trimBlankLines (splitLines (stripLabel (stripFenceEnd (stripFenceStart x)))) = []
  · have hc : cleanCompletion x = [] := by
      unfold cleanCompletion
      rw [htn]
      rfl
    rw [hc]
    decide
  · have hc : cleanCompletion x =
        joinLines (trimBlankLines (splitLines (stripLabel (stripFenceEnd (stripFenceStart x))))) := rfl
    rw [hc]
    rw [splitLines_joinLines _ htn ?hnl]
    · rw [trimBlankLines_idem]
    case hnl =>
      intro l hl
      exact splitLines_mem_no_newline _ l (trimBlankLines_subset hl)

/-- Witness for the conditional idempotence of cleaning. -/
theorem c4_witness :
    stripFenceStart (cleanCompletion "hello\nworld".data) = cleanCompletion "hello\nworld".data ∧
    stripFenceEnd (cleanCompletion "hello\nworld".data) = cleanCompletion "hello\nworld".data ∧
    stripLabel (cleanCompletion "hello\nworld".data) = cleanCompletion "hello\nworld".data ∧
    cleanCompletion (cleanCompletion "hello\nworld".data) = cleanCompletion "hello\nworld".data :=
  ⟨by decide, by decide, by decide,
   c4_clean_idempotent_conditional "hello\nworld".data (by decide) (by decide) (by decide)⟩

/-- The fallback loop collects the stripped truncations of the non-blank
lines, stopping at ten. -/
theorem fallbackLoop_eq : ∀ (ls acc : List PyStr), acc.length < 10 →
    fallbackLoop ls acc = acc ++
      ((ls.filter (fun l => pyStrip l ≠ [])).map (fun l => (pyStrip l).take 80)).take
        (10 - acc.length) := by
  intro ls
  induction ls with
  | nil => intro acc h; simp [fallbackLoop]
  | cons l ls ih =>
    intro acc h
    have hstep : fallbackLoop (l :: ls) acc =
        (if 10 ≤ (if pyStrip l ≠ [] then acc ++ [(pyStrip l).take 80] else acc).length
         then (if pyStrip l ≠ [] then acc ++ [(pyStrip l).take 80] else acc)
         else fallbackLoop ls (if pyStrip l ≠ [] then acc ++ [(pyStrip l).take 80] else acc)) := rfl
    by_cases hb : pyStrip l = []
    · have hin : (if pyStrip l ≠ [] then acc ++ [(pyStrip l).take 80] else acc) = acc := by
        simp [hb]
      rw [hstep, hin, if_neg (by omega)]
      rw [ih acc h]
      congr 1
      rw [List.filter_cons_of_neg (by simp [hb])]
    · have hin : (if pyStrip l ≠ [] then acc ++ [(pyStrip l).take 80] else acc) =
          acc ++ [(pyStrip l).take 80] := by simp [hb]
      rw [hstep, hin]
      rw [List.filter_cons_of_pos (by simp [hb])]
      by_cases h9 : acc.length = 9
      · rw [if_pos (by simp [h9])]
        rw [List.map_cons, h9]
        simp
      · rw [if_neg (by simp; omega)]
        rw [ih (acc ++ [(pyStrip l).take 80]) (by simp; omega)]
        rw [List.map_cons]
        have h10 : 10 - acc.length = (10 - (acc.length + 1)) + 1 := by omega
        rw [h10, List.take_succ_cons]
        simp

/-- Spec-side definition following C8's words: the first 20 non-blank lines
of the text, each stripped and truncated to 80 characters, with the overall
summary capped at 30 lines. -/
def specFileSummaryC8 (text : PyStr) : PyStr :=
  joinLines (((((splitLines text).filter (fun l => pyStrip l ≠ [])).take 20).map
    (fun l => (pyStrip l).take 80)).take 30)

/-- C8 counterexample: on eleven non-blank lines in a language with no
special branch, the code's fallback emits only ten summary lines (its loop
breaks at ten, scanning only the first 20 raw lines), not the first 20
non-blank lines the claim states. -/
theorem c8_counterexample :
    extractFileSummary (joinLines (List.replicate 11 ['x'])) "go".data ≠
      specFileSummaryC8 (joinLines (List.replicate 11 ['x'])) := by
  decide

/-- C8 amended: for every language other than python, javascript and
typescript, the file summary equals the stripped 80-character truncations of
the non-blank lines among the first 20 lines of the text, stopping after ten
collected lines (the 30-line cap never binds). -/
theorem c8_fallback_summary (text language : PyStr)
    (h1 : language ≠ "python".data) (h2 : language ≠ "javascript".data)
    (h3 : language ≠ "typescript".data) :
    extractFileSummary text language =
      joinLines (((((splitLines text).take 20).filter (fun l => pyStrip l ≠ [])).map
        (fun l => (pyStrip l).take 80)).take 10) := by
  simp only [extractFileSummary, h1, h2, h3, if_false]
  rw [fallbackLoop_eq ((splitLines text).take 20) [] (by simp)]
  simp [List.take_take]

/-- Witness for the amended C8 on a concrete non-special-language document. -/
theorem c8_witness :
    ("rust".data : PyStr) ≠ "python".data ∧
    extractFileSummary "  a\n\nb  ".data "rust".data =
      joinLines ((((((splitLines "  a\n\nb  ".data).take 20).filter
        (fun l => pyStrip l ≠ [])).map (fun l => (pyStrip l).take 80)).take 10)) :=
  ⟨by decide, c8_fallback_summary "  a\n\nb  ".data "rust".data
    (by decide) (by decide) (by decide)⟩

/-- C6: for every message whose method name is a string not among the
dispatcher's recognized methods, a request (id present and non-null) gets a
JSON-RPC error response with code -32601 echoing that exact id and the
`Method not found` message, while a notification (no id) produces no
response at all — for every server state and collaborators. -/
theorem c6_unknown_method_dispatch (ctx : Ctx) (st : SState) (req : Json) (m : PyStr)
    (hm : jgetD req "method".data (.str []) = Json.str m)
    (hnotin : m ∉ recognizedMethods) :
    ((requestIdOf req = none → (handleRequest ctx st req).1 = none) ∧
     (∀ i, requestIdOf req = some i →
       (handleRequest ctx st req).1 = some (Json.obj
         [("jsonrpc".data, .str "2.0".data), ("id".data, i),
          ("error".data, .obj [("code".data, .num (-32601)),
            ("message".data, .str ("Method not found: ".data ++ m))])]))) := by
  simp only [recognizedMethods, List.mem_cons, not_or, List.not_mem_nil, not_false_eq_true,
    and_true] at hnotin
  obtain ⟨e1, e2, e3, e4, e5, e6, e7, e8, e9, e10, e11, e12⟩ := hnotin
  constructor
  · intro hid
    simp only [handleRequest, hm, Json.str.injEq, e1, e2, e3, e4, e5, e6, e7, e8, e9, e10,
      e11, e12, if_false, hid]
  · intro i hi
    simp only [handleRequest, hm, Json.str.injEq, e1, e2, e3, e4, e5, e6, e7, e8, e9, e10,
      e11, e12, if_false, hi, mkErrorResponse, pyStrOfJson]

/-- Concrete server collaborators for witnesses: a backend that always
fails and a git binary whose every command prints nothing. -/
def ctx0 : Ctx := { ollama := olConst, git0 := gitEmptyOut, gitAt := fun _ => gitEmptyOut }

/-- Server state right after construction with the witness collaborators. -/
def st0 : SState := initServer ctx0

/-- The scenario request: unknown method `foo/bar` with id 7. -/
def req7 : Json := Json.obj
  [("jsonrpc".data, .str "2.0".data), ("id".data, .num 7), ("method".data, .str "foo/bar".data)]

/-- Witness for C6: id=7 with method `foo/bar` yields the -32601 error
response echoing id 7. -/
theorem c6_witness :
    jgetD req7 "method".data (.str []) = Json.str "foo/bar".data ∧
    requestIdOf req7 = some (.num 7) ∧
    (handleRequest ctx0 st0 req7).1 = some (Json.obj
      [("jsonrpc".data, .str "2.0".data), ("id".data, .num 7),
       ("error".data, .obj [("code".data, .num (-32601)),
         ("message".data, .str ("Method not found: ".data ++ "foo/bar".data))])]) :=
  ⟨by decide, by decide,
   (c6_unknown_method_dispatch ctx0 st0 req7 "foo/bar".data (by decide) (by decide)).2
     (.num 7) (by decide)⟩
theorem isDigit_iff (c : Char) : c.isDigit = true ↔ 48 ≤ c.toNat ∧ c.toNat ≤ 57 := by
  simp only [Char.isDigit, Bool.and_eq_true, decide_eq_true_eq, ge_iff_le, Char.toNat]
  rw [UInt32.le_def, UInt32.le_def, BitVec.le_def, BitVec.le_def]
  have h1 : (48 : UInt32).toBitVec.toNat = 48 := rfl
  have h2 : (57 : UInt32).toBitVec.toNat = 57 := rfl
  have h3 : c.val.toBitVec.toNat = c.val.toNat := rfl
  rw [h1, h2, h3]

theorem char_eq_iff_toNat (c d : Char) : c = d ↔ c.toNat = d.toNat := by
  constructor
  · intro h; rw [h]
  · intro h
    have := Char.ofNat_toNat c
    rw [h, Char.ofNat_toNat] at this
    exact this.symm

theorem char_toNat_ofNat {n : Nat} (h : n < 0xd800 ∨ (0xdfff < n ∧ n < 0x110000)) :
    (Char.ofNat n).toNat = n := by
  simp [Char.ofNat, Char.toNat]
  rw [dif_pos h]
  rfl

theorem char_valid_ranges (c : Char) :
    c.toNat < 0xd800 ∨ (0xdfff < c.toNat ∧ c.toNat < 0x110000) := by
  have h := c.valid
  simp [UInt32.isValidChar, Nat.isValidChar] at h
  rcases h with h | h
  · exact Or.inl h
  · exact Or.inr h

theorem natToDec_all_digits : ∀ n, ∀ c ∈ natToDec n, c.isDigit = true := by
  intro n
  induction n using Nat.strong_induction_on with
  | _ n ih =>
    intro c hc
    rw [natToDec] at hc
    by_cases h : n < 10
    · rw [dif_pos h] at hc
      simp only [List.mem_singleton] at hc
      subst hc
      rw [isDigit_iff, char_toNat_ofNat (Or.inl (by omega))]
      omega
    · rw [dif_neg h] at hc
      rcases List.mem_append.mp hc with h1 | h1
      · exact ih (n / 10) (Nat.div_lt_self (by omega) (by omega)) c h1
      · simp only [List.mem_singleton] at h1
        subst h1
        rw [isDigit_iff, char_toNat_ofNat (Or.inl (by omega))]
        omega

theorem decVal_append_one (ds : PyStr) (c : Char) :
    decVal (ds ++ [c]) = decVal ds * 10 + (c.toNat - 48) := by
  simp [decVal, List.foldl_append]

theorem decVal_natToDec : ∀ n, decVal (natToDec n) = n := by
  intro n
  induction n using Nat.strong_induction_on with
  | _ n ih =>
    rw [natToDec]
    by_cases h : n < 10
    · rw [dif_pos h]
      simp only [decVal, List.foldl_cons, List.foldl_nil]
      rw [char_toNat_ofNat (Or.inl (by omega))]
      omega
    · rw [dif_neg h]
      rw [decVal_append_one]
      rw [ih (n / 10) (Nat.div_lt_self (by omega) (by omega))]
      rw [char_toNat_ofNat (Or.inl (by omega))]
      omega

theorem natToDec_ne_nil (n : Nat) : natToDec n ≠ [] := by
  rw [natToDec]
  by_cases h : n < 10
  · rw [dif_pos h]; simp
  · rw [dif_neg h]; simp

theorem natToDec_headq_ne_zero : ∀ n, 1 ≤ n → (natToDec n).head? ≠ some '0' := by
  intro n
  induction n using Nat.strong_induction_on with
  | _ n ih =>
    intro h1
    rw [natToDec]
    by_cases h : n < 10
    · rw [dif_pos h]
      simp only [List.head?_cons, ne_eq, Option.some.injEq]
      intro hz
      rw [char_eq_iff_toNat, char_toNat_ofNat (Or.inl (by omega))] at hz
      have : ('0' : Char).toNat = 48 := rfl
      omega
    · rw [dif_neg h]
      have hne := natToDec_ne_nil (n / 10)
      cases hd : natToDec (n / 10) with
      | nil => exact absurd hd hne
      | cons a t =>
        simp only [List.cons_append, List.head?_cons, ne_eq, Option.some.injEq]
        intro hz
        have := ih (n / 10) (Nat.div_lt_self (by omega) (by omega)) (by omega)
        rw [hd] at this
        simp only [List.head?_cons, ne_eq, Option.some.injEq] at this
        exact this hz

theorem leadZero_natToDec (n : Nat) : leadZero (natToDec n) = false := by
  cases hd : natToDec n with
  | nil => rfl
  | cons a t =>
    cases t with
    | nil => rfl
    | cons b t2 =>
      show decide (a = '0') = false
      simp only [decide_eq_false_iff_not]
      intro ha
      by_cases h0 : n = 0
      · subst h0
        rw [natToDec, dif_pos (by omega)] at hd
        simp at hd
      · have hzz := natToDec_headq_ne_zero n (by omega)
        rw [hd] at hzz
        simp only [List.head?_cons, ne_eq, Option.some.injEq] at hzz
        exact hzz ha

theorem takeWhile_append_all {α : Type} (p : α → Bool) : ∀ (xs ys : List α),
    (∀ x ∈ xs, p x = true) → (xs ++ ys).takeWhile p = xs ++ ys.takeWhile p := by
  intro xs
  induction xs with
  | nil => simp
  | cons a as ih =>
    intro ys h
    simp only [List.cons_append, List.takeWhile_cons, h a (by simp), if_true]
    rw [ih ys (fun x hx => h x (by simp [hx]))]

theorem dropWhile_append_all {α : Type} (p : α → Bool) : ∀ (xs ys : List α),
    (∀ x ∈ xs, p x = true) → (xs ++ ys).dropWhile p = ys.dropWhile p := by
  intro xs
  induction xs with
  | nil => simp
  | cons a as ih =>
    intro ys h
    simp only [List.cons_append, List.dropWhile_cons, h a (by simp), if_true]
    exact ih ys (fun x hx => h x (by simp [hx]))

/-- Bundle of dispatch facts about a decimal digit character. -/
theorem digit_char_facts (c : Char) (h : c.isDigit = true) :
    isJsonWs c = false ∧ c ≠ 'n' ∧ c ≠ 't' ∧ c ≠ 'f' ∧ c ≠ '"' ∧ c ≠ '[' ∧ c ≠ '\x7b' ∧
    c ≠ '-' ∧ c ≠ ']' ∧ c ≠ '\x7d' ∧ c ≠ ',' ∧ c ≠ ':' ∧ c ≠ '.' ∧ c ≠ 'e' ∧ c ≠ 'E' := by
  refine ⟨?_, ?_, ?_, ?_, ?_, ?_, ?_, ?_, ?_, ?_, ?_, ?_, ?_, ?_, ?_⟩
  · cases hws : isJsonWs c with
    | false => rfl
    | true =>
      exfalso
      simp only [isJsonWs, Bool.or_eq_true, decide_eq_true_eq] at hws
      rcases hws with ((h1 | h1) | h1) | h1 <;> (subst h1; exact absurd h (by decide))
  all_goals (intro he; subst he; exact absurd h (by decide))

/-- No digit, dot or exponent character follows: the integer token ends
exactly at the serialized digits. -/
def numStopB (rest : PyStr) : Bool :=
  match rest with
  | [] => true
  | c :: _ => !c.isDigit && !(c = '.') && !(c = 'e') && !(c = 'E')

/-- The first character of a serialized integer is `-` or a digit, and
`parseNum` recovers the integer when no digit/float character follows. -/
theorem num_case (n : Int) (rest : PyStr) (h : numStopB rest = true) :
    ∃ c r, intToDec n ++ rest = c :: r ∧
      isJsonWs c = false ∧ c ≠ 'n' ∧ c ≠ 't' ∧ c ≠ 'f' ∧ c ≠ '"' ∧ c ≠ '[' ∧ c ≠ '\x7b' ∧
      c ≠ ']' ∧ c ≠ '\x7d' ∧
      (c = '-' ∨ c.isDigit = true) ∧
      parseNum c r = some (.num n, rest) := by
  have hstop1 : rest.takeWhile Char.isDigit = [] := by
    cases rest with
    | nil => rfl
    | cons x xs =>
      simp only [numStopB, Bool.and_eq_true, Bool.not_eq_true'] at h
      rw [List.takeWhile_cons, h.1.1.1]
      simp
  have hstop2 : rest.dropWhile Char.isDigit = rest := by
    cases rest with
    | nil => rfl
    | cons x xs =>
      simp only [numStopB, Bool.and_eq_true, Bool.not_eq_true'] at h
      rw [List.dropWhile_cons, h.1.1.1]
      simp
  have hfloat : floatNext rest = false := by
    cases rest with
    | nil => rfl
    | cons x xs =>
      simp only [numStopB, Bool.and_eq_true, Bool.not_eq_true', decide_eq_false_iff_not] at h
      simp only [floatNext]
      simp [h.1.1.2, h.1.2, h.2]
  by_cases hn : n < 0
  · refine ⟨'-', natToDec (-n).toNat ++ rest, ?_,
      by decide, by decide, by decide, by decide, by decide, by decide, by decide,
      by decide, by decide, Or.inl rfl, ?_⟩
    · rw [intToDec, if_pos hn]
      rfl
    · have hall := natToDec_all_digits (-n).toNat
      unfold parseNum
      rw [if_pos rfl]
      rw [takeWhile_append_all Char.isDigit _ _ hall, hstop1, List.append_nil]
      rw [dropWhile_append_all Char.isDigit _ _ hall, hstop2]
      rw [if_neg (by simpa using natToDec_ne_nil (-n).toNat)]
      rw [leadZero_natToDec]
      rw [if_neg (by simp)]
      rw [hfloat]
      rw [if_neg (by simp)]
      rw [decVal_natToDec]
      have : -((-n).toNat : Int) = n := by omega
      rw [this]
  · have hall := natToDec_all_digits n.toNat
    cases hd : natToDec n.toNat with
    | nil => exact absurd hd (natToDec_ne_nil n.toNat)
    | cons d ds =>
      have hddig : d.isDigit = true := by
        apply hall
        rw [hd]
        simp
      obtain ⟨f1, f2, f3, f4, f5, f6, f7, f8, f9, f10, f11, f12, f13, f14, f15⟩ :=
        digit_char_facts d hddig
      refine ⟨d, ds ++ rest, ?_, f1, f2, f3, f4, f5, f6, f7, f9, f10, Or.inr hddig, ?_⟩
      · rw [intToDec, if_neg hn, hd]
        rfl
      · unfold parseNum
        rw [if_neg f8]
        have hsplit : (d :: (ds ++ rest)) = (d :: ds) ++ rest := rfl
        rw [hsplit, ← hd]
        rw [takeWhile_append_all Char.isDigit _ _ hall, hstop1, List.append_nil]
        rw [dropWhile_append_all Char.isDigit _ _ hall, hstop2]
        rw [if_neg (by simpa using natToDec_ne_nil n.toNat)]
        rw [leadZero_natToDec]
        rw [if_neg (by simp)]
        rw [hfloat]
        rw [if_neg (by simp)]
        rw [decVal_natToDec]
        have : (n.toNat : Int) = n := by omega
        rw [this]

theorem hexVal_hexDigit (k : Nat) (h : k < 16) : hexVal (hexDigit k) = some k := by
  interval_cases k <;> decide

theorem hex4Val_hex4 (n : Nat) (h : n < 0x10000) :
    hex4Val (hexDigit (n / 4096 % 16)) (hexDigit (n / 256 % 16))
      (hexDigit (n / 16 % 16)) (hexDigit (n % 16)) = some n := by
  unfold hex4Val
  rw [hexVal_hexDigit _ (by omega), hexVal_hexDigit _ (by omega),
    hexVal_hexDigit _ (by omega), hexVal_hexDigit _ (by omega)]
  simp only [Option.some.injEq]
  omega

theorem parseStr_pair_step (f : Nat) (a1 a2 a3 a4 b1 b2 b3 b4 : Char) (X : PyStr) (n m : Nat)
    (hh : hex4Val a1 a2 a3 a4 = some n) (hg : hex4Val b1 b2 b3 b4 = some m)
    (hn : 0xd800 ≤ n ∧ n ≤ 0xdbff) (hm : 0xdc00 ≤ m ∧ m ≤ 0xdfff) :
    parseStr (f + 1)
      ('\\' :: 'u' :: a1 :: a2 :: a3 :: a4 :: '\\' :: 'u' :: b1 :: b2 :: b3 :: b4 :: X) =
      consStr (Char.ofNat (0x10000 + (n - 0xd800) * 1024 + (m - 0xdc00))) (parseStr f X) := by
  show (match hex4Val a1 a2 a3 a4 with
    | none => none
    | some n =>
      if 0xd800 ≤ n ∧ n ≤ 0xdbff then
        (match ('\\' :: 'u' :: b1 :: b2 :: b3 :: b4 :: X : PyStr) with
         | '\\' :: 'u' :: g1 :: g2 :: g3 :: g4 :: rest4 =>
           match hex4Val g1 g2 g3 g4 with
           | none => none
           | some m =>
             if 0xdc00 ≤ m ∧ m ≤ 0xdfff then
               consStr (Char.ofNat (0x10000 + (n - 0xd800) * 1024 + (m - 0xdc00)))
                 (parseStr f rest4)
             else none
         | _ => none)
      else if 0xdc00 ≤ n ∧ n ≤ 0xdfff then none
      else consStr (Char.ofNat n) (parseStr f ('\\' :: 'u' :: b1 :: b2 :: b3 :: b4 :: X))) =
    consStr (Char.ofNat (0x10000 + (n - 0xd800) * 1024 + (m - 0xdc00))) (parseStr f X)
  rw [hh]
  change (if 0xd800 ≤ n ∧ n ≤ 0xdbff then
      (match hex4Val b1 b2 b3 b4 with
       | none => none
       | some m =>
         if 0xdc00 ≤ m ∧ m ≤ 0xdfff then
           consStr (Char.ofNat (0x10000 + (n - 0xd800) * 1024 + (m - 0xdc00))) (parseStr f X)
         else none)
    else _) = _
  rw [if_pos hn, hg]
  change (if 0xdc00 ≤ m ∧ m ≤ 0xdfff then
      consStr (Char.ofNat (0x10000 + (n - 0xd800) * 1024 + (m - 0xdc00))) (parseStr f X)
    else none) = _
  rw [if_pos hm]

theorem parseStr_escStr : ∀ (s rest : PyStr) (fuel : Nat), s.length < fuel →
    parseStr fuel (escStr s ++ '"' :: rest) = some (s, rest) := by
  intro s
  induction s with
  | nil =>
    intro rest fuel h
    cases fuel with
    | zero => omega
    | succ f => rfl
  | cons c s ih =>
    intro rest fuel h
    cases fuel with
    | zero => omega
    | succ f =>
      have ihf := ih rest f (by simp at h; omega)
      have hassoc : escStr (c :: s) ++ '"' :: rest = escapeChar c ++ (escStr s ++ '"' :: rest) := by
        show (escapeChar c ++ escStr s) ++ '"' :: rest = _
        rw [List.append_assoc]
      rw [hassoc]
      by_cases h1 : c = '"'
      · subst h1
        rw [show escapeChar '"' = ['\\', '"'] from rfl]
        show consStr '"' (parseStr f (escStr s ++ '"' :: rest)) = _
        rw [ihf]
        rfl
      by_cases h2 : c = '\\'
      · subst h2
        rw [show escapeChar '\\' = ['\\', '\\'] from rfl]
        show consStr '\\' (parseStr f (escStr s ++ '"' :: rest)) = _
        rw [ihf]
        rfl
      by_cases h3 : c = '\n'
      · subst h3
        rw [show escapeChar '\n' = ['\\', 'n'] from rfl]
        show consStr '\n' (parseStr f (escStr s ++ '"' :: rest)) = _
        rw [ihf]
        rfl
      by_cases h4 : c = '\t'
      · subst h4
        rw [show escapeChar '\t' = ['\\', 't'] from rfl]
        show consStr '\t' (parseStr f (escStr s ++ '"' :: rest)) = _
        rw [ihf]
        rfl
      by_cases h5 : c = '\r'
      · subst h5
        rw [show escapeChar '\r' = ['\\', 'r'] from rfl]
        show consStr '\r' (parseStr f (escStr s ++ '"' :: rest)) = _
        rw [ihf]
        rfl
      by_cases h6 : c = '\x08'
      · subst h6
        rw [show escapeChar '\x08' = ['\\', 'b'] from rfl]
        show consStr '\x08' (parseStr f (escStr s ++ '"' :: rest)) = _
        rw [ihf]
        rfl
      by_cases h7 : c = '\x0c'
      · subst h7
        rw [show escapeChar '\x0c' = ['\\', 'f'] from rfl]
        show consStr '\x0c' (parseStr f (escStr s ++ '"' :: rest)) = _
        rw [ihf]
        rfl
      by_cases h8 : c.toNat < 0x20
      · have he : escapeChar c = '\\' :: 'u' :: hex4 c.toNat := by
          unfold escapeChar
          rw [if_neg h1, if_neg h2, if_neg h3, if_neg h4, if_neg h5, if_neg h6, if_neg h7,
            if_pos h8]
        rw [he, show hex4 c.toNat = [hexDigit (c.toNat / 4096 % 16), hexDigit (c.toNat / 256 % 16),
          hexDigit (c.toNat / 16 % 16), hexDigit (c.toNat % 16)] from rfl]
        show (match hex4Val (hexDigit (c.toNat / 4096 % 16)) (hexDigit (c.toNat / 256 % 16))
            (hexDigit (c.toNat / 16 % 16)) (hexDigit (c.toNat % 16)) with
          | none => none
          | some n =>
            if 0xd800 ≤ n ∧ n ≤ 0xdbff then
              (match escStr s ++ '"' :: rest with
               | '\\' :: 'u' :: g1 :: g2 :: g3 :: g4 :: rest4 =>
                 match hex4Val g1 g2 g3 g4 with
                 | none => none
                 | some m =>
                   if 0xdc00 ≤ m ∧ m ≤ 0xdfff then
                     consStr (Char.ofNat (0x10000 + (n - 0xd800) * 1024 + (m - 0xdc00)))
                       (parseStr f rest4)
                   else none
               | _ => none)
            else if 0xdc00 ≤ n ∧ n ≤ 0xdfff then none
            else consStr (Char.ofNat n) (parseStr f (escStr s ++ '"' :: rest))) =
          some (c :: s, rest)
        rw [hex4Val_hex4 c.toNat (by omega)]
        change (if 0xd800 ≤ c.toNat ∧ c.toNat ≤ 0xdbff then _ else
          if 0xdc00 ≤ c.toNat ∧ c.toNat ≤ 0xdfff then none
          else consStr (Char.ofNat c.toNat) (parseStr f (escStr s ++ '"' :: rest))) = _
        rw [if_neg (by omega), if_neg (by omega), Char.ofNat_toNat, ihf]
        rfl
      by_cases h9 : c.toNat < 0x7f
      · have he : escapeChar c = [c] := by
          unfold escapeChar
          rw [if_neg h1, if_neg h2, if_neg h3, if_neg h4, if_neg h5, if_neg h6, if_neg h7,
            if_neg h8, if_pos h9]
        rw [he]
        show parseStr (f + 1) (c :: (escStr s ++ '"' :: rest)) = _
        simp only [parseStr]
        rw [if_neg h1, if_neg h2, if_neg h8, ihf]
        rfl
      by_cases h10 : c.toNat ≤ 0xffff
      · have hv := char_valid_ranges c
        have he : escapeChar c = '\\' :: 'u' :: hex4 c.toNat := by
          unfold escapeChar
          rw [if_neg h1, if_neg h2, if_neg h3, if_neg h4, if_neg h5, if_neg h6, if_neg h7,
            if_neg h8, if_neg h9, if_pos h10]
        rw [he, show hex4 c.toNat = [hexDigit (c.toNat / 4096 % 16), hexDigit (c.toNat / 256 % 16),
          hexDigit (c.toNat / 16 % 16), hexDigit (c.toNat % 16)] from rfl]
        show (match hex4Val (hexDigit (c.toNat / 4096 % 16)) (hexDigit (c.toNat / 256 % 16))
            (hexDigit (c.toNat / 16 % 16)) (hexDigit (c.toNat % 16)) with
          | none => none
          | some n =>
            if 0xd800 ≤ n ∧ n ≤ 0xdbff then
              (match escStr s ++ '"' :: rest with
               | '\\' :: 'u' :: g1 :: g2 :: g3 :: g4 :: rest4 =>
                 match hex4Val g1 g2 g3 g4 with
                 | none => none
                 | some m =>
                   if 0xdc00 ≤ m ∧ m ≤ 0xdfff then
                     consStr (Char.ofNat (0x10000 + (n - 0xd800) * 1024 + (m - 0xdc00)))
                       (parseStr f rest4)
                   else none
               | _ => none)
            else if 0xdc00 ≤ n ∧ n ≤ 0xdfff then none
            else consStr (Char.ofNat n) (parseStr f (escStr s ++ '"' :: rest))) =
          some (c :: s, rest)
        rw [hex4Val_hex4 c.toNat (by omega)]
        change (if 0xd800 ≤ c.toNat ∧ c.toNat ≤ 0xdbff then _ else
          if 0xdc00 ≤ c.toNat ∧ c.toNat ≤ 0xdfff then none
          else consStr (Char.ofNat c.toNat) (parseStr f (escStr s ++ '"' :: rest))) = _
        rw [if_neg (by omega), if_neg (by omega), Char.ofNat_toNat, ihf]
        rfl
      · have hv := char_valid_ranges c
        have he : escapeChar c =
            ('\\' :: 'u' :: hex4 (0xd800 + (c.toNat - 0x10000) / 1024)) ++
            ('\\' :: 'u' :: hex4 (0xdc00 + (c.toNat - 0x10000) % 1024)) := by
          unfold escapeChar
          rw [if_neg h1, if_neg h2, if_neg h3, if_neg h4, if_neg h5, if_neg h6, if_neg h7,
            if_neg h8, if_neg h9, if_neg h10]
        rw [he,
          show hex4 (0xd800 + (c.toNat - 0x10000) / 1024) =
            [hexDigit ((0xd800 + (c.toNat - 0x10000) / 1024) / 4096 % 16),
             hexDigit ((0xd800 + (c.toNat - 0x10000) / 1024) / 256 % 16),
             hexDigit ((0xd800 + (c.toNat - 0x10000) / 1024) / 16 % 16),
             hexDigit ((0xd800 + (c.toNat - 0x10000) / 1024) % 16)] from rfl,
          show hex4 (0xdc00 + (c.toNat - 0x10000) % 1024) =
            [hexDigit ((0xdc00 + (c.toNat - 0x10000) % 1024) / 4096 % 16),
             hexDigit ((0xdc00 + (c.toNat - 0x10000) % 1024) / 256 % 16),
             hexDigit ((0xdc00 + (c.toNat - 0x10000) % 1024) / 16 % 16),
             hexDigit ((0xdc00 + (c.toNat - 0x10000) % 1024) % 16)] from rfl]
        simp only [List.cons_append, List.nil_append]
        rw [parseStr_pair_step f _ _ _ _ _ _ _ _ _ _ _
          (hex4Val_hex4 (0xd800 + (c.toNat - 0x10000) / 1024) (by omega))
          (hex4Val_hex4 (0xdc00 + (c.toNat - 0x10000) % 1024) (by omega))
          (by constructor <;> omega) (by constructor <;> omega)]
        rw [show 0x10000 + (0xd800 + (c.toNat - 0x10000) / 1024 - 0xd800) * 1024 +
            (0xdc00 + (c.toNat - 0x10000) % 1024 - 0xdc00) = c.toNat from by omega]
        rw [Char.ofNat_toNat, ihf]
        rfl

mutual
/-- Fuel lower bound needed to parse a printed value. -/
def jsize : Json → Nat
  | .null => 1
  | .bool _ => 1
  | .num _ => 1
  | .str s => s.length + 2
  | .arr es => jsizeArr es + 2
  | .obj ms => jsizeObj ms + 2

/-- Fuel lower bound for a printed array's element list (fuel is reused
across siblings, so a maximum suffices). -/
def jsizeArr : List Json → Nat
  | [] => 0
  | e :: es => max (jsize e) (jsizeArr es + 1)

/-- Fuel lower bound for a printed object's member list. -/
def jsizeObj : List (PyStr × Json) → Nat
  | [] => 0
  | (k, v) :: ms => max (max (k.length + 1) (jsize v)) (jsizeObj ms + 1)
end

theorem jsize_pos (j : Json) : 1 ≤ jsize j := by
  cases j <;> · simp only [jsize]; omega

theorem skipWs_append_ws (pre X : PyStr) (h : ∀ x ∈ pre, isJsonWs x = true) :
    skipWs (pre ++ X) = skipWs X := dropWhile_append_all _ pre X h

theorem skipWs_cons_not {c : Char} (h : isJsonWs c = false) (t : PyStr) :
    skipWs (c :: t) = c :: t := by simp [skipWs, List.dropWhile_cons, h]

/-- First character of a printed value: never whitespace and never a
closing bracket, closing brace, comma or colon. -/
theorem dumps_head : ∀ j : Json, ∃ c r, dumps j = c :: r ∧ isJsonWs c = false ∧
    c ≠ ']' ∧ c ≠ '\x7d' ∧ c ≠ ',' ∧ c ≠ ':' := by
  intro j
  cases j with
  | null => exact ⟨'n', _, rfl, by decide, by decide, by decide, by decide, by decide⟩
  | bool b =>
    cases b with
    | true => exact ⟨'t', _, rfl, by decide, by decide, by decide, by decide, by decide⟩
    | false => exact ⟨'f', _, rfl, by decide, by decide, by decide, by decide, by decide⟩
  | num n =>
    by_cases hn : n < 0
    · refine ⟨'-', natToDec (-n).toNat, ?_, by decide, by decide, by decide, by decide, by decide⟩
      show intToDec n = _
      rw [intToDec, if_pos hn]
    · have hall := natToDec_all_digits n.toNat
      cases hd : natToDec n.toNat with
      | nil => exact absurd hd (natToDec_ne_nil n.toNat)
      | cons d ds =>
        have hddig : d.isDigit = true := by
          apply hall; rw [hd]; simp
        obtain ⟨f1, _, _, _, _, _, _, _, f9, f10, f11, f12, _, _, _⟩ :=
          digit_char_facts d hddig
        refine ⟨d, ds, ?_, f1, f9, f10, f11, f12⟩
        show intToDec n = _
        rw [intToDec, if_neg hn, hd]
  | str s => exact ⟨'"', _, rfl, by decide, by decide, by decide, by decide, by decide⟩
  | arr es => exact ⟨'[', _, rfl, by decide, by decide, by decide, by decide, by decide⟩
  | obj ms => exact ⟨'\x7b', _, rfl, by decide, by decide, by decide, by decide, by decide⟩

/-- The printed form of a nonempty element list starts with its first
element's printed form. -/
theorem dumpsArr_cons_decomp (e : Json) (es : List Json) :
    ∃ t, dumpsArr (e :: es) = dumps e ++ t := by
  cases es with
  | nil => exact ⟨[], by simp [dumpsArr]⟩
  | cons e2 es2 => exact ⟨',' :: ' ' :: dumpsArr (e2 :: es2), rfl⟩

/-- Every character escapes to at least one output character. -/
theorem escapeChar_len (c : Char) : 1 ≤ (escapeChar c).length := by
  unfold escapeChar
  split_ifs <;> simp [hex4]

/-- Escaping a string never shortens it. -/
theorem escStr_len : ∀ s : PyStr, s.length ≤ (escStr s).length := by
  intro s
  induction s with
  | nil => simp [escStr]
  | cons c rest ih =>
    have h := escapeChar_len c
    simp only [escStr, List.length_cons, List.length_append]
    omega

/-- The parser fuel `jsize` is covered by the printed length plus one, so
`loads` has enough fuel to re-read `dumps` output. -/
theorem dumps_fuel : ∀ n : Nat,
    (∀ j : Json, sizeOf j ≤ n → jsize j ≤ (dumps j).length + 1) ∧
    (∀ es : List Json, sizeOf es ≤ n → jsizeArr es + 1 ≤ (dumpsArr es).length + 2) ∧
    (∀ ms : List (PyStr × Json), sizeOf ms ≤ n →
      jsizeObj ms + 1 ≤ (dumpsObj ms).length + 2) := by
  intro n
  induction n using Nat.strong_induction_on with
  | _ n ih =>
    refine ⟨?_, ?_, ?_⟩
    · intro j hj
      cases j with
      | null => simp [jsize, dumps]
      | bool b => cases b <;> simp [jsize, dumps]
      | num m => simp [jsize]
      | str s =>
        have h := escStr_len s
        simp only [jsize, dumps, dumpStr, List.length_cons, List.length_append,
          List.length_singleton]
        omega
      | arr es =>
        have hlt : sizeOf es < n := by
          have h2 : sizeOf (Json.arr es) = 1 + sizeOf es := by simp
          omega
        have h := (ih (sizeOf es) hlt).2.1 es le_rfl
        simp only [jsize, dumps, List.length_cons, List.length_append,
          List.length_singleton]
        omega
      | obj ms =>
        have hlt : sizeOf ms < n := by
          have h2 : sizeOf (Json.obj ms) = 1 + sizeOf ms := by simp
          omega
        have h := (ih (sizeOf ms) hlt).2.2 ms le_rfl
        simp only [jsize, dumps, List.length_cons, List.length_append,
          List.length_singleton]
        omega
    · intro es hes
      cases es with
      | nil => simp [jsizeArr, dumpsArr]
      | cons e es2 =>
        have hlte : sizeOf e < n := by
          have h2 : sizeOf (e :: es2) = 1 + sizeOf e + sizeOf es2 := by simp
          omega
        have he := (ih (sizeOf e) hlte).1 e le_rfl
        cases es2 with
        | nil =>
          have hstep : dumpsArr [e] = dumps e := rfl
          have hsz : jsizeArr [e] = max (jsize e) 1 := rfl
          rw [hstep, hsz]
          omega
        | cons e2 es3 =>
          have hltt : sizeOf (e2 :: es3) < n := by
            have h2 : sizeOf (e :: e2 :: es3) = 1 + sizeOf e + sizeOf (e2 :: es3) := by simp
            omega
          have ht := (ih (sizeOf (e2 :: es3)) hltt).2.1 (e2 :: es3) le_rfl
          have hstep : dumpsArr (e :: e2 :: es3) =
              dumps e ++ ',' :: ' ' :: dumpsArr (e2 :: es3) := rfl
          have hsz : jsizeArr (e :: e2 :: es3) = max (jsize e) (jsizeArr (e2 :: es3) + 1) := rfl
          rw [hstep, hsz]
          simp only [List.length_append, List.length_cons]
          omega
    · intro ms hms
      cases ms with
      | nil => simp [jsizeObj, dumpsObj]
      | cons m ms2 =>
        obtain ⟨k, v⟩ := m
        have hltv : sizeOf v < n := by
          have h2 : sizeOf ((k, v) :: ms2) = 1 + (1 + sizeOf k + sizeOf v) + sizeOf ms2 := by
            simp
          omega
        have hv := (ih (sizeOf v) hltv).1 v le_rfl
        have hk := escStr_len k
        cases ms2 with
        | nil =>
          have hstep : dumpsObj [(k, v)] = dumpStr k ++ ':' :: ' ' :: dumps v := rfl
          have hsz : jsizeObj [(k, v)] = max (max (k.length + 1) (jsize v)) 1 := rfl
          rw [hstep, hsz]
          simp only [dumpStr, List.length_append, List.length_cons,
            List.length_singleton]
          omega
        | cons m2 ms3 =>
          have hltt : sizeOf (m2 :: ms3) < n := by
            have h2 : sizeOf ((k, v) :: m2 :: ms3) =
                1 + (1 + sizeOf k + sizeOf v) + sizeOf (m2 :: ms3) := by simp
            omega
          have ht := (ih (sizeOf (m2 :: ms3)) hltt).2.2 (m2 :: ms3) le_rfl
          have hstep : dumpsObj ((k, v) :: m2 :: ms3) =
              dumpStr k ++ ':' :: ' ' :: dumps v ++ ',' :: ' ' :: dumpsObj (m2 :: ms3) := rfl
          have hsz : jsizeObj ((k, v) :: m2 :: ms3) =
              max (max (k.length + 1) (jsize v)) (jsizeObj (m2 :: ms3) + 1) := rfl
          rw [hstep, hsz]
          simp only [dumpStr, List.length_append, List.length_cons,
            List.length_singleton]
          omega

/-- One member of a printed object: the quote-led key, colon, space and
value parse back, leaving the separator decision to the caller. -/
theorem parseMembers_head (f : Nat) (pre : PyStr) (hpre : ∀ x ∈ pre, isJsonWs x = true)
    (k : PyStr) (v : Json) (tail : PyStr)
    (hklen : k.length < f)
    (hv : parseVal f (' ' :: (dumps v ++ tail)) = some (v, tail)) :
    parseMembers (f + 1) (pre ++ ('"' :: (escStr k ++ '"' :: (':' :: ' ' :: (dumps v ++ tail))))) =
      (if (skipWs tail).head? = some ',' then
         match parseMembers f (skipWs tail).tail with
         | some (ms2, r') => some ((k, v) :: ms2, r')
         | none => none
       else if (skipWs tail).head? = some '\x7d' then some ([(k, v)], (skipWs tail).tail)
       else none) := by
  simp only [parseMembers]
  rw [skipWs_append_ws _ _ hpre, skipWs_cons_not (by decide)]
  change (match parseStr f (escStr k ++ '"' :: (':' :: ' ' :: (dumps v ++ tail))) with
    | none => none
    | some (k', r2) =>
      match skipWs r2 with
      | [] => none
      | c2 :: r4 =>
        if c2 = ':' then
          match parseVal f r4 with
          | none => none
          | some (v', r5) =>
            if (skipWs r5).head? = some ',' then
              match parseMembers f (skipWs r5).tail with
              | some (ms2, r') => some ((k', v') :: ms2, r')
              | none => none
            else if (skipWs r5).head? = some '\x7d' then some ([(k', v')], (skipWs r5).tail)
            else none
        else none) = _
  rw [parseStr_escStr k _ f hklen]
  change (match skipWs (':' :: ' ' :: (dumps v ++ tail)) with
    | [] => none
    | c2 :: r4 =>
      if c2 = ':' then
        match parseVal f r4 with
        | none => none
        | some (v', r5) =>
          if (skipWs r5).head? = some ',' then
            match parseMembers f (skipWs r5).tail with
            | some (ms2, r') => some ((k, v') :: ms2, r')
            | none => none
          else if (skipWs r5).head? = some '\x7d' then some ([(k, v')], (skipWs r5).tail)
          else none
      else none) = _
  rw [skipWs_cons_not (by decide)]
  change (match parseVal f (' ' :: (dumps v ++ tail)) with
    | none => none
    | some (v', r5) =>
      if (skipWs r5).head? = some ',' then
        match parseMembers f (skipWs r5).tail with
        | some (ms2, r') => some ((k, v') :: ms2, r')
        | none => none
      else if (skipWs r5).head? = some '\x7d' then some ([(k, v')], (skipWs r5).tail)
      else none) = _
  rw [hv]

theorem parse_dumps_round : ∀ fuel : Nat,
    (∀ (j : Json) (pre rest : PyStr), jsize j ≤ fuel →
      (∀ x ∈ pre, isJsonWs x = true) → numStopB rest = true →
      parseVal fuel (pre ++ (dumps j ++ rest)) = some (j, rest)) ∧
    (∀ (es : List Json) (pre rest : PyStr), es ≠ [] → jsizeArr es + 1 ≤ fuel →
      (∀ x ∈ pre, isJsonWs x = true) →
      parseItems fuel (pre ++ (dumpsArr es ++ ']' :: rest)) = some (es, rest)) ∧
    (∀ (ms : List (PyStr × Json)) (pre rest : PyStr), ms ≠ [] → jsizeObj ms + 1 ≤ fuel →
      (∀ x ∈ pre, isJsonWs x = true) →
      parseMembers fuel (pre ++ (dumpsObj ms ++ '\x7d' :: rest)) = some (ms, rest)) := by
  intro fuel
  induction fuel with
  | zero =>
    refine ⟨fun j _ _ hsz _ _ => absurd hsz (by have := jsize_pos j; omega),
      fun es _ _ hne hsz _ => absurd hsz (by omega),
      fun ms _ _ hne hsz _ => absurd hsz (by omega)⟩
  | succ f ih =>
    obtain ⟨ihv, ihi, ihm⟩ := ih
    refine ⟨?_, ?_, ?_⟩
    · -- parseVal
      intro j pre rest hsz hpre hstop
      cases j with
      | null =>
        have hs : skipWs (pre ++ (dumps .null ++ rest)) = 'n' :: 'u' :: 'l' :: 'l' :: rest := by
          rw [skipWs_append_ws _ _ hpre]
          exact skipWs_cons_not (by decide) _
        simp only [parseVal]
        rw [hs]
        rfl
      | bool b =>
        cases b with
        | true =>
          have hs : skipWs (pre ++ (dumps (.bool true) ++ rest)) =
              't' :: 'r' :: 'u' :: 'e' :: rest := by
            rw [skipWs_append_ws _ _ hpre]
            exact skipWs_cons_not (by decide) _
          simp only [parseVal]
          rw [hs]
          rfl
        | false =>
          have hs : skipWs (pre ++ (dumps (.bool false) ++ rest)) =
              'f' :: 'a' :: 'l' :: 's' :: 'e' :: rest := by
            rw [skipWs_append_ws _ _ hpre]
            exact skipWs_cons_not (by decide) _
          simp only [parseVal]
          rw [hs]
          rfl
      | num n =>
        obtain ⟨c, r, hsplit, g1, g2, g3, g4, g5, g6, g7, g8, g9, hor, hparse⟩ :=
          num_case n rest hstop
        have hs : skipWs (pre ++ (dumps (.num n) ++ rest)) = c :: r := by
          rw [skipWs_append_ws _ _ hpre]
          show skipWs (intToDec n ++ rest) = c :: r
          rw [hsplit]
          exact skipWs_cons_not g1 _
        simp only [parseVal]
        rw [hs]
        change (if c = 'n' then _ else _) = _
        rw [if_neg g2, if_neg g3, if_neg g4, if_neg g5, if_neg g6, if_neg g7]
        rw [if_pos (by rcases hor with h | h <;> simp [h])]
        exact hparse
      | str s =>
        have hesc : dumps (.str s) ++ rest = '"' :: (escStr s ++ '"' :: rest) := by
          show ('"' :: escStr s ++ ['"']) ++ rest = _
          simp
        have hs : skipWs (pre ++ (dumps (.str s) ++ rest)) = '"' :: (escStr s ++ '"' :: rest) := by
          rw [skipWs_append_ws _ _ hpre, hesc]
          exact skipWs_cons_not (by decide) _
        simp only [parseVal]
        rw [hs]
        have hlen : s.length < f := by
          simp only [jsize] at hsz
          omega
        change (match parseStr f (escStr s ++ '"' :: rest) with
          | some (s', r') => some (Json.str s', r')
          | none => none) = _
        rw [parseStr_escStr s rest f hlen]
      | arr es =>
        cases es with
        | nil =>
          have hs : skipWs (pre ++ (dumps (.arr []) ++ rest)) = '[' :: ']' :: rest := by
            rw [skipWs_append_ws _ _ hpre]
            exact skipWs_cons_not (by decide) _
          simp only [parseVal]
          rw [hs]
          rfl
        | cons e es' =>
          obtain ⟨t, ht⟩ := dumpsArr_cons_decomp e es'
          obtain ⟨c0, r0, hd0, hnw0, hne0, _, _, _⟩ := dumps_head e
          have harr : dumps (.arr (e :: es')) ++ rest =
              '[' :: (dumpsArr (e :: es') ++ ']' :: rest) := by
            show ('[' :: dumpsArr (e :: es') ++ [']']) ++ rest = _
            simp
          have hs : skipWs (pre ++ (dumps (.arr (e :: es')) ++ rest)) =
              '[' :: (dumpsArr (e :: es') ++ ']' :: rest) := by
            rw [skipWs_append_ws _ _ hpre, harr]
            exact skipWs_cons_not (by decide) _
          have hinner : skipWs (dumpsArr (e :: es') ++ ']' :: rest) =
              dumpsArr (e :: es') ++ ']' :: rest := by
            rw [ht, List.append_assoc, hd0]
            exact skipWs_cons_not hnw0 _
          have hhead : (dumpsArr (e :: es') ++ ']' :: rest).head? = some c0 := by
            rw [ht, List.append_assoc, hd0]
            rfl
          simp only [parseVal]
          rw [hs]
          change (if (skipWs (dumpsArr (e :: es') ++ ']' :: rest)).head? = some ']' then
              some (Json.arr [], (skipWs (dumpsArr (e :: es') ++ ']' :: rest)).tail)
            else
              match parseItems f (skipWs (dumpsArr (e :: es') ++ ']' :: rest)) with
              | some (es2, r') => some (Json.arr es2, r')
              | none => none) = _
          rw [hinner, if_neg (by rw [hhead]; simp [hne0])]
          have hsz' : jsizeArr (e :: es') + 1 ≤ f := by
            simp only [jsize] at hsz
            omega
          have := ihi (e :: es') [] rest (by simp) hsz' (by simp)
          simp only [List.nil_append] at this
          rw [this]
      | obj ms =>
        cases ms with
        | nil =>
          have hs : skipWs (pre ++ (dumps (.obj []) ++ rest)) = '\x7b' :: '\x7d' :: rest := by
            rw [skipWs_append_ws _ _ hpre]
            exact skipWs_cons_not (by decide) _
          simp only [parseVal]
          rw [hs]
          rfl
        | cons m ms' =>
          obtain ⟨k, v⟩ := m
          have hdecomp : ∃ t, dumpsObj ((k, v) :: ms') = '"' :: t := by
            cases ms' with
            | nil => exact ⟨escStr k ++ ['"'] ++ ':' :: ' ' :: dumps v, by simp [dumpsObj, dumpStr]⟩
            | cons m2 ms2 =>
              exact ⟨escStr k ++ ['"'] ++ ':' :: ' ' :: dumps v ++ ',' :: ' ' :: dumpsObj (m2 :: ms2),
                by simp [dumpsObj, dumpStr]⟩
          obtain ⟨t, ht⟩ := hdecomp
          have hobj : dumps (.obj ((k, v) :: ms')) ++ rest =
              '\x7b' :: (dumpsObj ((k, v) :: ms') ++ '\x7d' :: rest) := by
            show ('\x7b' :: dumpsObj ((k, v) :: ms') ++ ['\x7d']) ++ rest = _
            simp
          have hs : skipWs (pre ++ (dumps (.obj ((k, v) :: ms')) ++ rest)) =
              '\x7b' :: (dumpsObj ((k, v) :: ms') ++ '\x7d' :: rest) := by
            rw [skipWs_append_ws _ _ hpre, hobj]
            exact skipWs_cons_not (by decide) _
          have hinner : skipWs (dumpsObj ((k, v) :: ms') ++ '\x7d' :: rest) =
              dumpsObj ((k, v) :: ms') ++ '\x7d' :: rest := by
            rw [ht]
            exact skipWs_cons_not (by decide) _
          have hhead : (dumpsObj ((k, v) :: ms') ++ '\x7d' :: rest).head? = some '"' := by
            rw [ht]
            rfl
          simp only [parseVal]
          rw [hs]
          change (if (skipWs (dumpsObj ((k, v) :: ms') ++ '\x7d' :: rest)).head? =
              some '\x7d' then
              some (Json.obj [], (skipWs (dumpsObj ((k, v) :: ms') ++ '\x7d' :: rest)).tail)
            else
              match parseMembers f (skipWs (dumpsObj ((k, v) :: ms') ++ '\x7d' :: rest)) with
              | some (ms2, r') => some (Json.obj ms2, r')
              | none => none) = _
          rw [hinner, if_neg (by rw [hhead]; simp)]
          have hsz' : jsizeObj ((k, v) :: ms') + 1 ≤ f := by
            simp only [jsize] at hsz
            omega
          have hres := ihm ((k, v) :: ms') [] rest (by simp) hsz' (by simp)
          simp only [List.nil_append] at hres
          rw [hres]
    · -- parseItems
      intro es pre rest hne hsz hpre
      cases es with
      | nil => exact absurd rfl hne
      | cons e es' =>
        simp only [parseItems]
        cases es' with
        | nil =>
          have heq : pre ++ (dumpsArr [e] ++ ']' :: rest) = pre ++ (dumps e ++ ']' :: rest) := by
            simp [dumpsArr]
          rw [heq]
          rw [ihv e pre (']' :: rest) (by simp [jsizeArr] at hsz; omega) hpre rfl]
          rfl
        | cons e2 es'' =>
          have heq : pre ++ (dumpsArr (e :: e2 :: es'') ++ ']' :: rest) =
              pre ++ (dumps e ++ (',' :: ' ' :: (dumpsArr (e2 :: es'') ++ ']' :: rest))) := by
            show pre ++ ((dumps e ++ ',' :: ' ' :: dumpsArr (e2 :: es'')) ++ ']' :: rest) = _
            simp
          rw [heq]
          rw [ihv e pre (',' :: ' ' :: (dumpsArr (e2 :: es'') ++ ']' :: rest))
            (by simp only [jsizeArr] at hsz; omega) hpre rfl]
          have hres := ihi (e2 :: es'') [' '] rest (by simp)
            (by
              have h1 : jsizeArr (e :: e2 :: es'') =
                  max (jsize e) (jsizeArr (e2 :: es'') + 1) := rfl
              rw [h1] at hsz
              omega) (by decide)
          simp only [List.singleton_append] at hres
          change (match parseItems f (' ' :: (dumpsArr (e2 :: es'') ++ ']' :: rest)) with
            | some (es2, r') => some (e :: es2, r')
            | none => none) = _
          rw [hres]
    · -- parseMembers
      intro ms pre rest hne hsz hpre
      cases ms with
      | nil => exact absurd rfl hne
      | cons m ms' =>
        obtain ⟨k, v⟩ := m
        have hklen : k.length < f := by
          simp only [jsizeObj] at hsz
          omega
        have hvsz : jsize v ≤ f := by
          simp only [jsizeObj] at hsz
          omega
        cases ms' with
        | nil =>
          have heq : pre ++ (dumpsObj [(k, v)] ++ '\x7d' :: rest) =
              pre ++ ('"' :: (escStr k ++ '"' :: (':' :: ' ' :: (dumps v ++ '\x7d' :: rest)))) := by
            show pre ++ ((('"' :: escStr k ++ ['"']) ++ ':' :: ' ' :: dumps v) ++ '\x7d' :: rest) = _
            simp
          rw [heq]
          have hv := ihv v [' '] ('\x7d' :: rest) hvsz (by decide) rfl
          simp only [List.singleton_append] at hv
          rw [parseMembers_head f pre hpre k v ('\x7d' :: rest) hklen hv]
          rfl
        | cons m2 ms2 =>
          have heq : pre ++ (dumpsObj ((k, v) :: m2 :: ms2) ++ '\x7d' :: rest) =
              pre ++ ('"' :: (escStr k ++ '"' :: (':' :: ' ' ::
                (dumps v ++ (',' :: ' ' :: (dumpsObj (m2 :: ms2) ++ '\x7d' :: rest)))))) := by
            show pre ++ ((('"' :: escStr k ++ ['"']) ++ ':' :: ' ' :: dumps v ++
              ',' :: ' ' :: dumpsObj (m2 :: ms2)) ++ '\x7d' :: rest) = _
            simp
          rw [heq]
          have hv := ihv v [' '] (',' :: ' ' :: (dumpsObj (m2 :: ms2) ++ '\x7d' :: rest))
            hvsz (by decide) rfl
          simp only [List.singleton_append] at hv
          rw [parseMembers_head f pre hpre k v _ hklen hv]
          have hres := ihm (m2 :: ms2) [' '] rest (by simp)
            (by
              have h1 : jsizeObj ((k, v) :: m2 :: ms2) =
                  max (max (k.length + 1) (jsize v)) (jsizeObj (m2 :: ms2) + 1) := rfl
              rw [h1] at hsz
              omega) (by decide)
          simp only [List.singleton_append] at hres
          change (match parseMembers f (' ' :: (dumpsObj (m2 :: ms2) ++ '\x7d' :: rest)) with
            | some (ms2', r') => some ((k, v) :: ms2', r')
            | none => none) = _
          rw [hres]

/-- `json.loads` is a left inverse of `json.dumps` in the model: printing
any value and re-parsing it gives the value back. -/
theorem loads_dumps (j : Json) : loads (dumps j) = some j := by
  have hfuel : jsize j ≤ (dumps j).length + 1 := (dumps_fuel (sizeOf j)).1 j le_rfl
  have h := (parse_dumps_round ((dumps j).length + 1)).1 j [] [] hfuel (by simp) rfl
  simp only [List.nil_append, List.append_nil] at h
  simp only [loads]
  rw [h]
  rfl

/-!
ASCII reasoning for the wire encoding: with `ensure_ascii=True` the
serialized JSON is pure ASCII, on which UTF-8 is the identity byte map.
-/

theorem hexDigit_ascii (n : Nat) (h : n < 16) : (hexDigit n).toNat < 0x80 := by
  unfold hexDigit
  by_cases h10 : n < 10
  · rw [if_pos h10, char_toNat_ofNat (Or.inl (by omega))]
    omega
  · rw [if_neg h10, char_toNat_ofNat (Or.inl (by omega))]
    omega

theorem digit_ascii {c : Char} (h : c.isDigit = true) : c.toNat < 0x80 := by
  have := (isDigit_iff c).mp h
  omega

theorem hex4_ascii (n : Nat) : ∀ c ∈ hex4 n, c.toNat < 0x80 := by
  intro c hc
  simp only [hex4, List.mem_cons, List.mem_singleton, List.not_mem_nil, or_false] at hc
  rcases hc with h | h | h | h <;> subst h <;>
    exact hexDigit_ascii _ (Nat.mod_lt _ (by omega))

theorem escapeChar_ascii (c : Char) : ∀ b ∈ escapeChar c, b.toNat < 0x80 := by
  intro b hb
  unfold escapeChar at hb
  split_ifs at hb with h1 h2 h3 h4 h5 h6 h7 h8 h9 h10
  all_goals
    simp only [List.mem_cons, List.mem_append, List.mem_singleton, List.not_mem_nil,
      or_false] at hb
  all_goals
    first
    | (rcases hb with rfl | rfl <;> decide)
    | (rcases hb with rfl | rfl | h
       · decide
       · decide
       · exact hex4_ascii _ b h)
    | (subst hb; omega)
    | (rcases hb with (rfl | rfl | h) | (rfl | rfl | h) <;>
        first | decide | exact hex4_ascii _ b h)

theorem escStr_ascii : ∀ s : PyStr, ∀ b ∈ escStr s, b.toNat < 0x80 := by
  intro s
  induction s with
  | nil => intro b hb; simp [escStr] at hb
  | cons c rest ih =>
    intro b hb
    simp only [escStr, List.mem_append] at hb
    rcases hb with h | h
    · exact escapeChar_ascii c b h
    · exact ih b h

theorem natToDec_ascii (n : Nat) : ∀ c ∈ natToDec n, c.toNat < 0x80 :=
  fun c hc => digit_ascii (natToDec_all_digits n c hc)

theorem intToDec_ascii (i : Int) : ∀ c ∈ intToDec i, c.toNat < 0x80 := by
  intro c hc
  unfold intToDec at hc
  split_ifs at hc
  · rcases List.mem_cons.mp hc with rfl | h
    · decide
    · exact natToDec_ascii _ c h
  · exact natToDec_ascii _ c hc

theorem dumps_ascii : ∀ n : Nat,
    (∀ j : Json, sizeOf j ≤ n → ∀ c ∈ dumps j, c.toNat < 0x80) ∧
    (∀ es : List Json, sizeOf es ≤ n → ∀ c ∈ dumpsArr es, c.toNat < 0x80) ∧
    (∀ ms : List (PyStr × Json), sizeOf ms ≤ n → ∀ c ∈ dumpsObj ms, c.toNat < 0x80) := by
  intro n
  induction n using Nat.strong_induction_on with
  | _ n ih =>
    refine ⟨?_, ?_, ?_⟩
    · intro j hj c hc
      cases j with
      | null =>
        rw [show dumps Json.null = ['n', 'u', 'l', 'l'] from rfl] at hc
        simp only [List.mem_cons, List.not_mem_nil, or_false] at hc
        rcases hc with rfl | rfl | rfl | rfl <;> decide
      | bool b =>
        cases b with
        | true =>
          rw [show dumps (Json.bool true) = ['t', 'r', 'u', 'e'] from rfl] at hc
          simp only [List.mem_cons, List.not_mem_nil, or_false] at hc
          rcases hc with rfl | rfl | rfl | rfl <;> decide
        | false =>
          rw [show dumps (Json.bool false) = ['f', 'a', 'l', 's', 'e'] from rfl] at hc
          simp only [List.mem_cons, List.not_mem_nil, or_false] at hc
          rcases hc with rfl | rfl | rfl | rfl | rfl <;> decide
      | num m => exact intToDec_ascii m c hc
      | str s =>
        simp only [dumps, dumpStr, List.mem_cons, List.mem_append, List.mem_singleton,
          List.not_mem_nil, or_false, or_assoc] at hc
        rcases hc with rfl | h | rfl
        · decide
        · exact escStr_ascii s c h
        · decide
      | arr es =>
        have hlt : sizeOf es < n := by
          have h2 : sizeOf (Json.arr es) = 1 + sizeOf es := by simp
          omega
        simp only [dumps, List.mem_cons, List.mem_append, List.mem_singleton,
          List.not_mem_nil, or_false, or_assoc] at hc
        rcases hc with rfl | h | rfl
        · decide
        · exact (ih (sizeOf es) hlt).2.1 es le_rfl c h
        · decide
      | obj ms =>
        have hlt : sizeOf ms < n := by
          have h2 : sizeOf (Json.obj ms) = 1 + sizeOf ms := by simp
          omega
        simp only [dumps, List.mem_cons, List.mem_append, List.mem_singleton,
          List.not_mem_nil, or_false, or_assoc] at hc
        rcases hc with rfl | h | rfl
        · decide
        · exact (ih (sizeOf ms) hlt).2.2 ms le_rfl c h
        · decide
    · intro es hes c hc
      cases es with
      | nil => simp [dumpsArr] at hc
      | cons e es2 =>
        have hlte : sizeOf e < n := by
          have h2 : sizeOf (e :: es2) = 1 + sizeOf e + sizeOf es2 := by simp
          omega
        cases es2 with
        | nil =>
          have hstep : dumpsArr [e] = dumps e := rfl
          rw [hstep] at hc
          exact (ih (sizeOf e) hlte).1 e le_rfl c hc
        | cons e2 es3 =>
          have hltt : sizeOf (e2 :: es3) < n := by
            have h2 : sizeOf (e :: e2 :: es3) = 1 + sizeOf e + sizeOf (e2 :: es3) := by simp
            omega
          have hstep : dumpsArr (e :: e2 :: es3) =
              dumps e ++ ',' :: ' ' :: dumpsArr (e2 :: es3) := rfl
          rw [hstep] at hc
          simp only [List.mem_append, List.mem_cons, List.not_mem_nil, or_false,
            or_assoc] at hc
          rcases hc with h | rfl | rfl | h
          · exact (ih (sizeOf e) hlte).1 e le_rfl c h
          · decide
          · decide
          · exact (ih (sizeOf (e2 :: es3)) hltt).2.1 (e2 :: es3) le_rfl c h
    · intro ms hms c hc
      cases ms with
      | nil => simp [dumpsObj] at hc
      | cons m ms2 =>
        obtain ⟨k, v⟩ := m
        have hltv : sizeOf v < n := by
          have h2 : sizeOf ((k, v) :: ms2) = 1 + (1 + sizeOf k + sizeOf v) + sizeOf ms2 := by
            simp
          omega
        cases ms2 with
        | nil =>
          have hstep : dumpsObj [(k, v)] = dumpStr k ++ ':' :: ' ' :: dumps v := rfl
          rw [hstep] at hc
          simp only [dumpStr, List.cons_append, List.mem_cons, List.mem_append,
            List.mem_singleton, List.not_mem_nil, or_false, or_assoc] at hc
          rcases hc with rfl | h | rfl | rfl | rfl | h
          · decide
          · exact escStr_ascii k c h
          · decide
          · decide
          · decide
          · exact (ih (sizeOf v) hltv).1 v le_rfl c h
        | cons m2 ms3 =>
          have hltt : sizeOf (m2 :: ms3) < n := by
            have h2 : sizeOf ((k, v) :: m2 :: ms3) =
                1 + (1 + sizeOf k + sizeOf v) + sizeOf (m2 :: ms3) := by simp
            omega
          have hstep : dumpsObj ((k, v) :: m2 :: ms3) =
              dumpStr k ++ ':' :: ' ' :: dumps v ++ ',' :: ' ' :: dumpsObj (m2 :: ms3) := rfl
          rw [hstep] at hc
          simp only [dumpStr, List.cons_append, List.mem_cons, List.mem_append,
            List.mem_singleton, List.not_mem_nil, or_false, or_assoc] at hc
          rcases hc with rfl | h | rfl | rfl | rfl | h | rfl | rfl | h
          · decide
          · exact escStr_ascii k c h
          · decide
          · decide
          · decide
          · exact (ih (sizeOf v) hltv).1 v le_rfl c h
          · decide
          · decide
          · exact (ih (sizeOf (m2 :: ms3)) hltt).2.2 (m2 :: ms3) le_rfl c h

/-- The serialized form of any value is pure ASCII. -/
theorem dumps_all_ascii (j : Json) : ∀ c ∈ dumps j, c.toNat < 0x80 :=
  (dumps_ascii (sizeOf j)).1 j le_rfl

theorem utf8EncodeChar_ascii {c : Char} (h : c.toNat < 0x80) :
    utf8EncodeChar c = [c.toNat] := by
  unfold utf8EncodeChar
  rw [if_pos h]

/-- On ASCII text, UTF-8 encoding is the per-character code map. -/
theorem utf8Encode_map {s : PyStr} (h : ∀ c ∈ s, c.toNat < 0x80) :
    utf8Encode s = s.map Char.toNat := by
  induction s with
  | nil => rfl
  | cons c rest ih =>
    simp only [utf8Encode, List.map_cons]
    rw [utf8EncodeChar_ascii (h c (by simp)), ih (fun x hx => h x (by simp [hx]))]
    rfl

/-- On ASCII text, the UTF-8 byte length is the character count. -/
theorem utf8Len_ascii {s : PyStr} (h : ∀ c ∈ s, c.toNat < 0x80) :
    utf8Len s = s.length := by
  induction s with
  | nil => rfl
  | cons c rest ih =>
    simp only [utf8Len, List.length_cons]
    rw [show utf8Len1 c = 1 from by unfold utf8Len1; rw [if_pos (h c (by simp))]]
    rw [ih (fun x hx => h x (by simp [hx]))]
    omega

theorem utf8Encode_append (a b : PyStr) :
    utf8Encode (a ++ b) = utf8Encode a ++ utf8Encode b := by
  induction a with
  | nil => rfl
  | cons c rest ih =>
    simp only [List.cons_append, utf8Encode, List.append_assoc]
    rw [show rest.append b = rest ++ b from rfl, ih]

/-- Strict UTF-8 decoding inverts the code map on ASCII text. -/
theorem utf8Decode_map : ∀ (fuel : Nat) (s : PyStr), s.length < fuel →
    (∀ c ∈ s, c.toNat < 0x80) → utf8Decode fuel (s.map Char.toNat) = some s := by
  intro fuel
  induction fuel with
  | zero => intro s hlen; exact absurd hlen (Nat.not_lt_zero _)
  | succ f ih =>
    intro s hlen hascii
    cases s with
    | nil => rfl
    | cons c rest =>
      simp only [List.map_cons, utf8Decode]
      rw [if_pos (hascii c (by simp))]
      rw [ih rest (by simp only [List.length_cons] at hlen; omega)
        (fun x hx => hascii x (by simp [hx]))]
      rw [Char.ofNat_toNat]

theorem bytesDecodeUtf8_map {s : PyStr} (h : ∀ c ∈ s, c.toNat < 0x80) :
    bytesDecodeUtf8 (s.map Char.toNat) = some s := by
  unfold bytesDecodeUtf8
  rw [List.length_map]
  exact utf8Decode_map (s.length + 1) s (by omega) h

theorem dropWhile_all_false {α : Type} (p : α → Bool) :
    ∀ s : List α, (∀ c ∈ s, p c = false) → s.dropWhile p = s := by
  intro s h
  induction s with
  | nil => rfl
  | cons c rest ih =>
    rw [List.dropWhile_cons_of_neg (by rw [h c (by simp)]; simp)]

/-- `str.strip()` on whitespace ++ body ++ whitespace with a space-free body. -/
theorem pyStrip_mid (ws1 mid ws2 : PyStr) (h1 : ∀ c ∈ ws1, isPySpace c = true)
    (hm : ∀ c ∈ mid, isPySpace c = false) (h2 : ∀ c ∈ ws2, isPySpace c = true) :
    pyStrip (ws1 ++ (mid ++ ws2)) = mid := by
  unfold pyStrip
  rw [dropWhile_append_all _ ws1 _ h1]
  cases mid with
  | nil =>
    simp only [List.nil_append]
    rw [show ws2.dropWhile isPySpace = [] from by
      have := dropWhile_append_all isPySpace ws2 [] h2
      simpa using this]
    rfl
  | cons m rest =>
    rw [show ((m :: rest) ++ ws2).dropWhile isPySpace = (m :: rest) ++ ws2 from
      List.dropWhile_cons_of_neg (by rw [hm m (by simp)]; simp)]
    rw [List.reverse_append]
    rw [dropWhile_append_all _ ws2.reverse _
      (fun c hc => h2 c (by simpa using hc))]
    rw [dropWhile_all_false _ _
      (fun c hc => hm c (by
        simp only [List.reverse_cons, List.mem_append, List.mem_reverse,
          List.mem_singleton] at hc
        simpa using hc.symm))]
    simp

theorem digit_not_space {c : Char} (h : c.isDigit = true) : isPySpace c = false := by
  have hb := (isDigit_iff c).mp h
  by_contra hns
  rw [Bool.not_eq_false] at hns
  unfold isPySpace at hns
  simp only [Bool.or_eq_true, decide_eq_true_eq] at hns
  rcases hns with ((((h' | h') | h') | h') | h') | h' <;>
    (subst h'; exact absurd hb (by decide))

theorem digit_ne_ch {c d : Char} (h : c.isDigit = true)
    (hd : d.toNat < 48 ∨ 57 < d.toNat) : c ≠ d := by
  have hb := (isDigit_iff c).mp h
  intro he
  subst he
  omega

/-- Text-mode `readline` through the first newline. -/
theorem pyReadline_split : ∀ (xs ys : PyStr), (∀ c ∈ xs, c ≠ '\n') →
    pyReadline (xs ++ '\n' :: ys) = (xs ++ ['\n'], ys) := by
  intro xs
  induction xs with
  | nil =>
    intro ys h
    simp [pyReadline]
  | cons c rest ih =>
    intro ys h
    simp only [List.cons_append, pyReadline]
    rw [if_neg (h c (by simp))]
    rw [show rest.append ('\n' :: ys) = rest ++ '\n' :: ys from rfl]
    rw [ih ys (fun x hx => h x (by simp [hx]))]

theorem splitColonOnce_first : ∀ (xs ys : PyStr), (∀ c ∈ xs, c ≠ ':') →
    splitColonOnce (xs ++ ':' :: ys) = some (xs, ys) := by
  intro xs
  induction xs with
  | nil =>
    intro ys h
    simp [splitColonOnce]
  | cons c rest ih =>
    intro ys h
    simp only [List.cons_append, splitColonOnce]
    rw [if_neg (h c (by simp))]
    rw [show rest.append (':' :: ys) = rest ++ ':' :: ys from rfl]
    rw [ih ys (fun x hx => h x (by simp [hx]))]

theorem findCRLFCRLF_no13 : ∀ (xs rest : Bytes), (∀ b ∈ xs, b ≠ 13) →
    findCRLFCRLF (xs ++ rest) = (findCRLFCRLF rest).map (· + xs.length) := by
  intro xs
  induction xs with
  | nil =>
    intro rest h
    cases hf : findCRLFCRLF rest <;> simp [hf]
  | cons b bs ih =>
    intro rest h
    simp only [List.cons_append, findCRLFCRLF]
    rw [if_neg (by
      intro hc
      exact h b (by simp) hc.1)]
    rw [show bs.append rest = bs ++ rest from rfl]
    rw [ih rest (fun x hx => h x (by simp [hx]))]
    cases hf : findCRLFCRLF rest
    · simp [hf]
    · simp [hf, List.length_cons]
      omega

theorem findCRLFCRLF_start (rest : Bytes) :
    findCRLFCRLF (13 :: 10 :: 13 :: 10 :: rest) = some 0 := by
  simp [findCRLFCRLF]

theorem splitCRLF_no_cr : ∀ s : PyStr, (∀ c ∈ s, c ≠ '\r') → splitCRLF s = [s] := by
  intro s
  induction s with
  | nil => intro _; simp [splitCRLF]
  | cons c rest ih =>
    intro h
    unfold splitCRLF
    rw [if_neg (by
      intro hc
      exact h c (by simp) hc.1)]
    rw [ih (fun x hx => h x (by simp [hx]))]

/-- `str.strip()` removes a trailing whitespace run when the body starts and
ends with non-whitespace. -/
theorem pyStrip_ends (mid ws2 : PyStr)
    (hhead : ∀ c, mid.head? = some c → isPySpace c = false)
    (hlast : ∀ c, mid.getLast? = some c → isPySpace c = false)
    (hw : ∀ c ∈ ws2, isPySpace c = true) : pyStrip (mid ++ ws2) = mid := by
  unfold pyStrip
  cases mid with
  | nil =>
    simp only [List.nil_append]
    rw [show ws2.dropWhile isPySpace = [] from by
      have := dropWhile_append_all isPySpace ws2 [] hw
      simpa using this]
    rfl
  | cons m rest =>
    rw [show ((m :: rest) ++ ws2).dropWhile isPySpace = (m :: rest) ++ ws2 from
      List.dropWhile_cons_of_neg (by rw [hhead m rfl]; simp)]
    rw [List.reverse_append]
    rw [dropWhile_append_all _ ws2.reverse _
      (fun c hc => hw c (by simpa using hc))]
    cases hrev : (m :: rest).reverse with
    | nil => exact absurd hrev (by simp)
    | cons x xs =>
      have hx : (m :: rest).getLast? = some x := by
        rw [← List.head?_reverse, hrev]
        rfl
      rw [List.dropWhile_cons_of_neg (by rw [hlast x hx]; simp)]
      rw [← hrev, List.reverse_reverse]

theorem pyStrip_nospace (s : PyStr) (h : ∀ c ∈ s, isPySpace c = false) :
    pyStrip s = s := by
  have := pyStrip_mid [] s [] (by simp) h (by simp)
  simpa using this

theorem pyIntParse_natToDec (L : Nat) : pyIntParse (natToDec L) = some (L : Int) := by
  unfold pyIntParse
  rw [pyStrip_nospace _ (fun c hc => digit_not_space (natToDec_all_digits L c hc))]
  have hne : ∀ d : Char, (d.toNat < 48 ∨ 57 < d.toNat) →
      ¬((natToDec L).head? = some d) := by
    intro d hd hh
    cases hnd : natToDec L with
    | nil => rw [hnd] at hh; exact Option.noConfusion hh
    | cons a t =>
      rw [hnd] at hh
      have ha : a.isDigit = true := natToDec_all_digits L a (by rw [hnd]; simp)
      simp only [List.head?_cons, Option.some.injEq] at hh
      exact digit_ne_ch ha hd hh
  rw [if_neg (hne '-' (by decide)), if_neg (hne '+' (by decide))]
  rw [if_pos ⟨natToDec_ne_nil L, by
    rw [List.all_eq_true]
    exact fun c hc => natToDec_all_digits L c hc⟩]
  rw [decVal_natToDec]

theorem dumps_ne_nil (j : Json) : dumps j ≠ [] := by
  obtain ⟨c, r, hd, -⟩ := dumps_head j
  rw [hd]
  simp

/-- Characters of the literal header prefix are printable ASCII. -/
theorem header_prefix_facts : ∀ c ∈ "Content-Length: ".data,
    c.toNat < 0x80 ∧ c.toNat ≠ 13 ∧ c ≠ '\r' ∧ c ≠ '\n' := by decide

/-- The frame `TCPTransport._send_message` emits, in byte-map normal form. -/
theorem sendMessageBytes_shape (m : Json) :
    sendMessageBytes m =
      (("Content-Length: ".data ++ natToDec (dumps m).length).map Char.toNat) ++
        (13 :: 10 :: 13 :: 10 :: (dumps m).map Char.toNat) := by
  simp only [sendMessageBytes]
  rw [utf8Encode_map (dumps_all_ascii m), List.length_map]
  rw [utf8Encode_append, utf8Encode_append]
  rw [utf8Encode_map (fun c hc => (header_prefix_facts c hc).1)]
  rw [utf8Encode_map (fun c hc => digit_ascii (natToDec_all_digits _ c hc))]
  rw [show utf8Encode ("\x0d\x0a\x0d\x0a".data) = [13, 10, 13, 10] from rfl]
  simp [List.map_append]

/-- A well-formed frame around an arbitrary ASCII body, as bytes on the TCP
socket. -/
def frameBytes (body : PyStr) : Bytes :=
  ("Content-Length: ".data ++ natToDec body.length).map Char.toNat ++
    (13 :: 10 :: 13 :: 10 :: body.map Char.toNat)

/-- `TCPTransport._parse_message` on a buffer starting with a complete
well-formed frame: a valid body yields the message and consumes the frame; an
invalid body yields no message and leaves the buffer untouched. -/
theorem parseMessage_frame (body : PyStr) (extra : Bytes)
    (hascii : ∀ c ∈ body, c.toNat < 0x80) (hne : body ≠ []) :
    parseMessage (frameBytes body ++ extra) =
      (match loads body with
       | some msg => (some msg, extra)
       | none => (none, frameBytes body ++ extra)) := by
  have hL1 : 1 ≤ body.length := List.length_pos.mpr hne
  have hdsdig : ∀ c ∈ natToDec body.length, c.isDigit = true := natToDec_all_digits _
  have hpre_ascii : ∀ c ∈ "Content-Length: ".data ++ natToDec body.length,
      c.toNat < 0x80 := by
    intro c hc
    rcases List.mem_append.mp hc with h | h
    · exact (header_prefix_facts c h).1
    · exact digit_ascii (hdsdig c h)
  have hpre13 : ∀ b ∈ ("Content-Length: ".data ++ natToDec body.length).map
      Char.toNat, b ≠ 13 := by
    intro b hb
    simp only [List.mem_map, List.mem_append] at hb
    obtain ⟨c, hc | hc, rfl⟩ := hb
    · exact (header_prefix_facts c hc).2.1
    · have := (isDigit_iff c).mp (hdsdig c hc); omega
  have hpre_nocr : ∀ c ∈ "Content-Length: ".data ++ natToDec body.length,
      c ≠ '\x0d' := by
    intro c hc
    rcases List.mem_append.mp hc with h | h
    · exact (header_prefix_facts c h).2.2.1
    · exact digit_ne_ch (hdsdig c h) (by decide)
  have hbufshape : frameBytes body ++ extra =
      (("Content-Length: ".data ++ natToDec body.length).map Char.toNat) ++
        (13 :: 10 :: 13 :: 10 :: (body.map Char.toNat ++ extra)) := by
    simp [frameBytes]
  rw [hbufshape]
  have e1 : findCRLFCRLF
      ((("Content-Length: ".data ++ natToDec body.length).map Char.toNat) ++
        (13 :: 10 :: 13 :: 10 :: (body.map Char.toNat ++ extra))) =
      some ((("Content-Length: ".data ++ natToDec body.length).map Char.toNat).length) := by
    rw [findCRLFCRLF_no13 _ _ hpre13, findCRLFCRLF_start]
    simp only [Option.map_some, Option.map_some', Nat.zero_add]
  have e2 : bytesDecodeUtf8
      ((("Content-Length: ".data ++ natToDec body.length).map Char.toNat)) =
      some ("Content-Length: ".data ++ natToDec body.length) :=
    bytesDecodeUtf8_map hpre_ascii
  have e3 : splitCRLF ("Content-Length: ".data ++ natToDec body.length) =
      [("Content-Length: ".data ++ natToDec body.length)] :=
    splitCRLF_no_cr _ hpre_nocr
  have e4 : splitColonOnce ("Content-Length: ".data ++ natToDec body.length) =
      some ("Content-Length".data, ' ' :: natToDec body.length) := by
    rw [show "Content-Length: ".data ++ natToDec body.length =
      "Content-Length".data ++ ':' :: ' ' :: natToDec body.length from rfl]
    exact splitColonOnce_first _ _ (by decide)
  have e5 : pyStrip ("Content-Length".data) = "Content-Length".data :=
    pyStrip_nospace _ (by decide)
  have e6 : pyLower ("Content-Length".data) = "content-length".data := by decide
  have e7 : pyStrip (' ' :: natToDec body.length) = natToDec body.length := by
    have := pyStrip_mid [' '] (natToDec body.length) [] (by decide)
      (fun c hc => digit_not_space (hdsdig c hc)) (by simp)
    simpa using this
  have e8 : pyIntParse (natToDec body.length) = some (body.length : Int) :=
    pyIntParse_natToDec _
  have e9 : ¬((body.length : Int) = 0) := by
    simp only [Int.natCast_eq_zero]
    omega
  simp only [parseMessage, e1, List.take_left, e2, e3, e4, e5, e6, e7, e8,
    parseHeaderLines, assocSet, assocGet, if_pos, if_neg e9]
  rw [if_neg (by
    simp only [List.length_append, List.length_cons, List.length_map]
    push_cast
    omega)]
  have e11 : List.drop
      ((("Content-Length: ".data ++ natToDec body.length).map Char.toNat).length + 4)
      ((("Content-Length: ".data ++ natToDec body.length).map Char.toNat) ++
        (13 :: 10 :: 13 :: 10 :: (body.map Char.toNat ++ extra))) =
      body.map Char.toNat ++ extra := by
    rw [show (("Content-Length: ".data ++ natToDec body.length).map Char.toNat) ++
        (13 :: 10 :: 13 :: 10 :: (body.map Char.toNat ++ extra)) =
        ((("Content-Length: ".data ++ natToDec body.length).map Char.toNat) ++
          [13, 10, 13, 10]) ++ (body.map Char.toNat ++ extra) from by simp]
    rw [show (("Content-Length: ".data ++
          natToDec body.length).map Char.toNat).length + 4 =
        ((("Content-Length: ".data ++ natToDec body.length).map Char.toNat) ++
          [13, 10, 13, 10]).length from by simp]
    exact List.drop_left _ _
  have e12 : (((body.length : Int))).toNat = body.length := rfl
  have e13 : List.take (body.length) (body.map Char.toNat ++ extra) =
      body.map Char.toNat := by
    rw [show body.length = (body.map Char.toNat).length from
      (List.length_map _ _).symm]
    exact List.take_left _ _
  have e14 : bytesDecodeUtf8 (body.map Char.toNat) = some body :=
    bytesDecodeUtf8_map hascii
  have e16 : List.drop ((("Content-Length: ".data ++
        natToDec body.length).map Char.toNat).length + 4 + body.length)
      ((("Content-Length: ".data ++ natToDec body.length).map Char.toNat) ++
        (13 :: 10 :: 13 :: 10 :: (body.map Char.toNat ++ extra))) = extra := by
    rw [show (("Content-Length: ".data ++ natToDec body.length).map Char.toNat) ++
        (13 :: 10 :: 13 :: 10 :: (body.map Char.toNat ++ extra)) =
        ((("Content-Length: ".data ++ natToDec body.length).map Char.toNat) ++
          [13, 10, 13, 10] ++ body.map Char.toNat) ++ extra from by simp]
    rw [show (("Content-Length: ".data ++
          natToDec body.length).map Char.toNat).length + 4 + body.length =
        ((("Content-Length: ".data ++ natToDec body.length).map Char.toNat) ++
          [13, 10, 13, 10] ++ body.map Char.toNat).length from by
      simp [List.length_append, List.length_map]
      omega]
    exact List.drop_left _ _
  simp only [e12, e11, e13, e14, e16]

theorem tcp_frame_roundtrip (m : Json) :
    parseMessage (sendMessageBytes m) = (some m, []) := by
  have h := parseMessage_frame (dumps m) [] (dumps_all_ascii m) (dumps_ne_nil m)
  rw [loads_dumps] at h
  have hs : sendMessageBytes m = frameBytes (dumps m) ++ [] := by
    rw [sendMessageBytes_shape m, List.append_nil]
    rfl
  rw [hs, h]
theorem getLast?_mem_list {α : Type} {l : List α} {x : α} (h : l.getLast? = some x) :
    x ∈ l := by
  have hx : x ∈ l.getLast? := by rw [h]; rfl
  obtain ⟨hne, rfl⟩ := List.mem_getLast?_eq_getLast hx
  exact List.getLast_mem hne

/-- A well-formed frame around an arbitrary body, as the stdio transport
reads it (header, blank line, then `Content-Length` many characters). -/
def frameChars (body : PyStr) : PyStr :=
  "Content-Length: ".data ++ natToDec body.length ++ "\x0d\x0a\x0d\x0a".data ++ body

/-- `StdioTransport._read_message` on a well-formed frame hands the body to
`json.loads` and leaves the rest of the stream untouched. -/
theorem readMessage_frame (body rest : PyStr) (hne : body ≠ []) :
    readMessage (frameChars body ++ rest) = (loads body, rest) := by
  have hL1 : 1 ≤ body.length := List.length_pos.mpr hne
  have hdsdig : ∀ c ∈ natToDec body.length, c.isDigit = true := natToDec_all_digits _
  have hdsne : natToDec body.length ≠ [] := natToDec_ne_nil _
  have hw : frameChars body ++ rest = ("Content-Length: ".data ++
      natToDec body.length ++ ['\x0d']) ++
      '\x0a' :: ('\x0d' :: '\x0a' :: (body ++ rest)) := by
    simp only [frameChars]
    simp [List.append_assoc]
  rw [hw]
  have hno_nl : ∀ c ∈ "Content-Length: ".data ++ natToDec body.length ++ ['\x0d'],
      c ≠ '\x0a' := by
    intro c hc
    simp only [List.append_assoc, List.mem_append, List.mem_singleton] at hc
    rcases hc with h | h | rfl
    · exact (header_prefix_facts c h).2.2.2
    · exact digit_ne_ch (hdsdig c h) (by decide)
    · decide
  have hr1 : pyReadline (("Content-Length: ".data ++ natToDec body.length ++
        ['\x0d']) ++ '\x0a' :: ('\x0d' :: '\x0a' :: (body ++ rest))) =
      (("Content-Length: ".data ++ natToDec body.length ++ ['\x0d']) ++ ['\x0a'],
        '\x0d' :: '\x0a' :: (body ++ rest)) :=
    pyReadline_split _ _ hno_nl
  have hstrip1 : pyStrip (("Content-Length: ".data ++ natToDec body.length ++
        ['\x0d']) ++ ['\x0a']) =
      "Content-Length: ".data ++ natToDec body.length := by
    rw [show ("Content-Length: ".data ++ natToDec body.length ++ ['\x0d']) ++
        ['\x0a'] = ("Content-Length: ".data ++ natToDec body.length) ++
        ['\x0d', '\x0a'] from by simp]
    apply pyStrip_ends
    · intro c hc
      rw [show ("Content-Length: ".data ++ natToDec body.length).head? =
        some 'C' from rfl] at hc
      cases hc
      decide
    · intro c hc
      rw [List.getLast?_append_of_ne_nil _ hdsne] at hc
      exact digit_not_space (hdsdig c (getLast?_mem_list hc))
    · decide
  have e4 : splitColonOnce ("Content-Length: ".data ++ natToDec body.length) =
      some ("Content-Length".data, ' ' :: natToDec body.length) := by
    rw [show "Content-Length: ".data ++ natToDec body.length =
      "Content-Length".data ++ ':' :: ' ' :: natToDec body.length from rfl]
    exact splitColonOnce_first _ _ (by decide)
  have e5 : pyStrip ("Content-Length".data) = "Content-Length".data :=
    pyStrip_nospace _ (by decide)
  have e6 : pyLower ("Content-Length".data) = "content-length".data := by decide
  have e7 : pyStrip (' ' :: natToDec body.length) = natToDec body.length := by
    have := pyStrip_mid [' '] (natToDec body.length) [] (by decide)
      (fun c hc => digit_not_space (hdsdig c hc)) (by simp)
    simpa using this
  have hr2 : pyReadline ('\x0d' :: '\x0a' :: (body ++ rest)) =
      (['\x0d', '\x0a'], body ++ rest) := by
    have := pyReadline_split ['\x0d'] (body ++ rest) (by decide)
    simpa using this
  have hstrip2 : pyStrip ['\x0d', '\x0a'] = ([] : PyStr) := by decide
  have hrh : ∀ f : Nat, readHeaders (f + 2)
      (("Content-Length: ".data ++ natToDec body.length ++ ['\x0d']) ++
        '\x0a' :: ('\x0d' :: '\x0a' :: (body ++ rest))) [] =
      some ([("content-length".data, natToDec body.length)], body ++ rest) := by
    intro f
    rw [show f + 2 = (f + 1) + 1 from rfl]
    simp only [readHeaders, hr1]
    rw [if_neg (by simp)]
    simp only [hstrip1]
    rw [if_neg (by simp)]
    simp only [e4, e5, e6, e7, assocSet, readHeaders, hr2]
    rw [if_neg (by simp)]
    simp only [hstrip2]
    simp
  simp only [readMessage]
  rw [show (("Content-Length: ".data ++ natToDec body.length ++ ['\x0d']) ++
      '\x0a' :: ('\x0d' :: '\x0a' :: (body ++ rest))).length + 1 =
      ((("Content-Length: ".data ++ natToDec body.length ++ ['\x0d']) ++
      '\x0a' :: ('\x0d' :: '\x0a' :: (body ++ rest))).length - 1) + 2 from by
    simp only [List.length_append, List.length_cons, List.length_singleton]
    omega]
  rw [hrh]
  simp only [assocGet, if_true, pyIntParse_natToDec]
  rw [if_neg (by
    simp only [Int.natCast_eq_zero]
    omega)]
  have hneg : ¬((body.length : Int) < 0) := not_lt.mpr (Int.natCast_nonneg _)
  have htn : ((body.length : Int)).toNat = body.length := rfl
  simp only [pyRead, if_neg hneg, htn, List.take_left, List.drop_left]
  rw [if_neg hne]

/-- `StdioTransport._write_message` emits exactly a well-formed frame around
the serialized message. -/
theorem writeMessage_frameChars (m : Json) :
    writeMessage m = frameChars (dumps m) := by
  simp only [writeMessage, frameChars, utf8Len_ascii (dumps_all_ascii m)]

theorem stdio_frame_roundtrip (m : Json) :
    readMessage (writeMessage m) = (some m, []) := by
  have h := readMessage_frame (dumps m) [] (dumps_ne_nil m)
  rw [loads_dumps] at h
  rw [writeMessage_frameChars, ← List.append_nil (frameChars (dumps m)), h]

/-- C2: encoding a JSON object to wire form (Content-Length from the UTF-8
byte length of the serialized JSON, CRLF CRLF, then the body) and decoding it
back from the same stream yields exactly the object, with nothing left over:
on the stdio text transport via `_write_message`/`_read_message`, and on the
TCP byte transport via `_send_message`/`_parse_message` (empty remainder
buffer). -/
theorem c2_encode_decode_roundtrip (m : Json) :
    readMessage (writeMessage m) = (some m, []) ∧
    parseMessage (sendMessageBytes m) = (some m, []) :=
  ⟨stdio_frame_roundtrip m, tcp_frame_roundtrip m⟩

/-- C1 corrected: a framed body that is not valid JSON is not "dropped with
the transport continuing".  On stdio, `_read_message` returns `None` and the
`start` loop terminates, ignoring everything after the bad frame.  On TCP,
`_parse_message` returns no message and leaves the complete bad frame in the
buffer, so the connection stays open but no later frame is ever dispatched. -/
theorem c1_invalid_json_frame (ctx : Ctx) (st : SState) (body rest : PyStr)
    (extra chunk2 : Bytes)
    (hne : body ≠ []) (hbad : loads body = none)
    (hascii : ∀ c ∈ body, c.toNat < 0x80) (hch2 : chunk2 ≠ []) :
    stdioRun ctx st (frameChars body ++ rest) = ([], st) ∧
    parseMessage (frameBytes body ++ extra) = (none, frameBytes body ++ extra) ∧
    tcpClientRun ctx st [frameBytes body, chunk2] =
      ([], st, frameBytes body ++ chunk2) := by
  have hp0 : parseMessage (frameBytes body) = (none, frameBytes body) := by
    have h := parseMessage_frame body [] hascii hne
    rw [hbad] at h
    simpa using h
  have hp2 : parseMessage (frameBytes body ++ chunk2) =
      (none, frameBytes body ++ chunk2) := by
    have h := parseMessage_frame body chunk2 hascii hne
    rw [hbad] at h
    exact h
  have hpe : parseMessage (frameBytes body ++ extra) =
      (none, frameBytes body ++ extra) := by
    have h := parseMessage_frame body extra hascii hne
    rw [hbad] at h
    exact h
  have hfne : frameBytes body ≠ [] := by simp [frameBytes]
  refine ⟨?_, hpe, ?_⟩
  · simp only [stdioRun, stdioLoop, readMessage_frame body rest hne, hbad]
    rfl
  · have s1 : tcpInnerLoop ctx ((frameBytes body).length + 1) st (frameBytes body) [] =
        ⟨st, frameBytes body, [], none⟩ := by
      simp only [tcpInnerLoop, hp0]
    have s2 : tcpInnerLoop ctx ((frameBytes body ++ chunk2).length + 1) st
        (frameBytes body ++ chunk2) [] = ⟨st, frameBytes body ++ chunk2, [], none⟩ := by
      simp only [tcpInnerLoop, hp2]
    simp only [tcpClientRun, tcpClientLoop, List.nil_append]
    rw [if_neg hfne, s1]
    rw [if_neg hch2, s2]
    rfl

/-- Counterexample to C1 as stated: after a framed body that is not valid
JSON, the stdio read loop does not go on to dispatch the following frame (it
terminates with no responses), although that same following frame alone does
produce a response. -/
theorem c1_counterexample :
    (stdioRun ctx0 st0 (frameChars ['\x7b'] ++ frameChars (dumps req7))).1 = [] ∧
    (stdioRun ctx0 st0 (frameChars (dumps req7))).1 =
      [Json.obj [("jsonrpc".data, .str "2.0".data), ("id".data, .num 7),
        ("error".data, .obj [("code".data, .num (-32601)),
          ("message".data, .str ("Method not found: ".data ++ "foo/bar".data))])]] := by
  have hn1 : natToDec 1 = "1".data := by rw [natToDec]; decide
  have hi7 : intToDec 7 = "7".data := by
    rw [intToDec, if_neg (by decide), natToDec]
    decide
  have hd7 : dumps req7 =
      "\x7b\"jsonrpc\": \"2.0\", \"id\": 7, \"method\": \"foo/bar\"\x7d".data := by
    simp only [req7, dumps, dumpsObj, hi7]
    decide
  have hn48 : natToDec 48 = "48".data := by rw [natToDec, natToDec]; decide
  have hframe1 : frameChars ['\x7b'] =
      "Content-Length: 1\x0d\x0a\x0d\x0a\x7b".data := by
    simp only [frameChars, show (['\x7b'] : PyStr).length = 1 from rfl, hn1]
    decide
  have hframe2 : frameChars (dumps req7) =
      ("Content-Length: 48\x0d\x0a\x0d\x0a".data ++
        "\x7b\"jsonrpc\": \"2.0\", \"id\": 7, \"method\": \"foo/bar\"\x7d".data) := by
    simp only [frameChars, hd7]
    rw [show ("\x7b\"jsonrpc\": \"2.0\", \"id\": 7, \"method\": \"foo/bar\"\x7d".data :
      PyStr).length = 48 from rfl, hn48]
    decide
  rw [hframe1, hframe2]
  constructor
  · decide
  · decide

/-- Witness for the corrected C1 at the one-character body `\x7b`. -/
theorem c1_witness :
    (['\x7b'] : PyStr) ≠ [] ∧ loads ['\x7b'] = none ∧
    (stdioRun ctx0 st0 (frameChars ['\x7b'] ++ "X".data) = ([], st0) ∧
     parseMessage (frameBytes ['\x7b'] ++ [65]) = (none, frameBytes ['\x7b'] ++ [65]) ∧
     tcpClientRun ctx0 st0 [frameBytes ['\x7b'], [65]] =
       ([], st0, frameBytes ['\x7b'] ++ [65])) :=
  ⟨by decide, by decide,
   c1_invalid_json_frame ctx0 st0 ['\x7b'] "X".data [65] [65]
     (by decide) (by decide) (by decide) (by decide)⟩
